import Mathlib

/-!
# FtdiSpi: SPI master over an FTDI MPSSE engine

A shallow embedding of `src/ftdispi.cpp`.  The object state is a record, every
method is a function from a state to a new state (and a result), and the MPSSE
transport underneath (`mpsse_store`, `mpsse_write`, `mpsse_read`, `gpio_set`,
`gpio_clear`), which lives in the base class, is a parameter: a table of the
results its calls return.  Every call made to the transport is appended to a
trace kept in the state.

Bytes are natural numbers; the width of a machine integer is made explicit with
`% 2 ^ w` at the places where the source truncates.
-/

namespace FtdiSpi

/-- Macros of the MPSSE command set and of errno that the source uses and does
not define; each flag is a byte. -/
structure Consts where
  MPSSE_WRITE_NEG : Nat
  MPSSE_READ_NEG : Nat
  MPSSE_DO_WRITE : Nat
  MPSSE_DO_READ : Nat
  BITMODE_MPSSE : Nat
  ETIME : Nat
  write_neg_lt : MPSSE_WRITE_NEG < 256
  read_neg_lt : MPSSE_READ_NEG < 256
  do_write_lt : MPSSE_DO_WRITE < 256
  do_read_lt : MPSSE_DO_READ < 256

/-- The values the macros have in libftdi's `ftdi.h` and in Linux's errno. -/
def libftdi : Consts where
  MPSSE_WRITE_NEG := 0x01
  MPSSE_READ_NEG := 0x04
  MPSSE_DO_WRITE := 0x10
  MPSSE_DO_READ := 0x20
  BITMODE_MPSSE := 0x02
  ETIME := 62
  write_neg_lt := by decide
  read_neg_lt := by decide
  do_write_lt := by decide
  do_read_lt := by decide

/-- Modelled from the spec: the `SPI_CS_mode` enumeration of the class
declaration (`SPI_CS_AUTO`, `SPI_CS_MANUAL`), which is not in the source file. -/
inductive CsMode where
  | SPI_CS_AUTO
  | SPI_CS_MANUAL
  deriving DecidableEq, Repr

/-- One call made to the transport, with its arguments. -/
inductive Ev where
  /-- Call `mpsse_store(buf, len)`: the bytes handed over. -/
  | store (buf : List Nat)
  /-- Call `mpsse_write()`: flush of what was stored. -/
  | flush
  /-- Call `mpsse_read(ptr, len)`: a request for `len` bytes. -/
  | read (len : Nat)
  /-- Call `gpio_set(mask)`. -/
  | gpio_set (mask : Nat)
  /-- Call `gpio_clear(mask)`. -/
  | gpio_clear (mask : Nat)
  /-- Call `gpio_set_output(mask)`. -/
  | gpio_set_output (mask : Nat)
  /-- Call `init(latency, bitmask_mode, mode)`. -/
  | init (latency bitmask mode : Nat)
  deriving DecidableEq, Repr

/-- The transport as the object sees it: what the i-th call of each kind
returns.  `store i buf` is the result of the i-th `mpsse_store`, `flush i` of
the i-th `mpsse_write`, `read i n` the result of the i-th `mpsse_read` together
with the bytes it produced for a request of `n` bytes, and `gpio i` the result
of the i-th `gpio_set` / `gpio_clear`. -/
structure Transport where
  store : Nat → List Nat → Int
  flush : Nat → Int
  read : Nat → Nat → Int × List Nat
  gpio : Nat → Bool

/-- Modelled from the spec: the members of `FtdiSpi` the source file reads or
writes, whose declarations are in the class declaration and not in the source
file; the pin masks, the edge flags and the recorded CS level are bytes of the
8-bit GPIO byte.  With them, the buffer size of the base class and the record
of the calls made to the transport (the trace, and how many calls of each kind
were made). -/
structure State where
  _cs_bits : Nat
  _clk : Nat
  _holdn : Nat
  _wpn : Nat
  _cs : Nat
  _cs_mode : CsMode
  _wr_mode : Nat
  _rd_mode : Nat
  _clk_idle : Nat
  _buffer_size : Nat
  trace : List Ev
  nStore : Nat
  nFlush : Nat
  nRead : Nat
  nGpio : Nat
  deriving DecidableEq, Repr

/-- Copy of `n` bytes of `src` to `dst + off` (`memcpy`), on arrays held as lists. -/
def memcpy (dst : List Nat) (off : Nat) (src : List Nat) (n : Nat) : List Nat :=
  dst.take off ++ src.take n ++ dst.drop (off + (src.take n).length)

/-! ## The transport calls -/

/-- Call of `mpsse_store(buf, len)`: records the call, returns the transport's result. -/
def mpsse_store (T : Transport) (s : State) (buf : List Nat) : State × Int :=
  ({ s with trace := s.trace ++ [Ev.store buf], nStore := s.nStore + 1 },
    T.store s.nStore buf)

/-- Call of `mpsse_write()`: records the call, returns the transport's result. -/
def mpsse_write (T : Transport) (s : State) : State × Int :=
  ({ s with trace := s.trace ++ [Ev.flush], nFlush := s.nFlush + 1 },
    T.flush s.nFlush)

/-- Call of `mpsse_read(rx + off, len)`: records the call, copies what the transport
produced into the destination and returns the transport's result. -/
def mpsse_read (T : Transport) (s : State) (rx : List Nat) (off len : Nat) :
    State × Int × List Nat :=
  ({ s with trace := s.trace ++ [Ev.read len], nRead := s.nRead + 1 },
    (T.read s.nRead len).1, memcpy rx off (T.read s.nRead len).2 len)

/-- Call of `gpio_set(mask)`. -/
def gpio_set (T : Transport) (s : State) (mask : Nat) : State × Bool :=
  ({ s with trace := s.trace ++ [Ev.gpio_set mask], nGpio := s.nGpio + 1 },
    T.gpio s.nGpio)

/-- Call of `gpio_clear(mask)`. -/
def gpio_clear (T : Transport) (s : State) (mask : Nat) : State × Bool :=
  ({ s with trace := s.trace ++ [Ev.gpio_clear mask], nGpio := s.nGpio + 1 },
    T.gpio s.nGpio)

/-! ## Mode and chip select -/

/-- Method `FtdiSpi::setMode`. -/
def setMode (K : Consts) (T : Transport) (s : State) (mode : Nat) : State :=
  let s1 : State :=
    match mode with
    | 0 => { s with _clk_idle := 0, _wr_mode := K.MPSSE_WRITE_NEG, _rd_mode := 0 }
    | 1 => { s with _clk_idle := 0, _wr_mode := 0, _rd_mode := K.MPSSE_READ_NEG }
    | 2 => { s with _clk_idle := s._clk, _wr_mode := 0, _rd_mode := K.MPSSE_READ_NEG }
    | 3 => { s with _clk_idle := s._clk, _wr_mode := K.MPSSE_WRITE_NEG, _rd_mode := 0 }
    | _ => s
  if s1._clk_idle ≠ 0 then (gpio_set T s1 s1._clk).1 else (gpio_clear T s1 s1._clk).1

/-- Modelled from the spec: `setCSmode` of the class declaration, which stores
the CS policy. -/
def setCSmode (s : State) (cs_mode : CsMode) : State :=
  { s with _cs_mode := cs_mode }

/-- Method `FtdiSpi::confCs`: two consecutive CS commands; the result is the OR of the
two. -/
def confCs (T : Transport) (s : State) (stat : Nat) : State × Bool :=
  if stat = 0 then
    let r1 := gpio_clear T s s._cs_bits
    let r2 := gpio_clear T r1.1 s._cs_bits
    (r2.1, r1.2 || r2.2)
  else
    let r1 := gpio_set T s s._cs_bits
    let r2 := gpio_set T r1.1 s._cs_bits
    (r2.1, r1.2 || r2.2)

/-- Method `FtdiSpi::setCs`: `_cs` is a byte. -/
def setCs (T : Transport) (s : State) : State × Bool :=
  let s1 := { s with _cs := s._cs_bits % 256 }
  confCs T s1 s1._cs

/-- Method `FtdiSpi::clearCs`. -/
def clearCs (T : Transport) (s : State) : State × Bool :=
  let s1 := { s with _cs := 0 }
  confCs T s1 s1._cs

/-! ## The transaction engine -/

/-- The opcode byte `cmd[0]` of `ft2232_spi_wr_and_rd`; `has_write` and
`has_read` say whether `writearr` and `readarr` are non-null. -/
def opcode (K : Consts) (s : State) (has_write has_read : Bool) : Nat :=
  ((if has_read then K.MPSSE_DO_READ ||| s._rd_mode else 0) |||
    (if has_write then K.MPSSE_DO_WRITE ||| s._wr_mode else 0)) % 256

/-- The chunk limit `max_xfer` of `ft2232_spi_wr_and_rd`, a `uint16_t`: the
buffer size of the transport when reading, 4096 otherwise. -/
def max_xfer (s : State) (has_read : Bool) : Nat :=
  (if has_read then s._buffer_size else 4096) % 65536

/-- The three bytes of `cmd` once `cmd[1]` and `cmd[2]` are set for a chunk of
`xfer` bytes; `xfer - 1` is computed on 32 bits. -/
def header (cmd0 xfer : Nat) : List Nat :=
  [cmd0,
   ((((xfer + 2 ^ 32 - 1) % 2 ^ 32) >>> 0) &&& 0xff) % 256,
   ((((xfer + 2 ^ 32 - 1) % 2 ^ 32) >>> 8) &&& 0xff) % 256]

/-- The `while (len > 0)` loop of `ft2232_spi_wr_and_rd`.  The first argument
bounds the number of iterations; `none` means the bound was reached with `len`
still positive.  The second component of the result is the value of an early
`return ret`, or `none` when the loop ran to its end; the third is the read
buffer. -/
def xfer_loop (T : Transport) (cmd0 max_xfer : Nat) (writearr : Option (List Nat)) :
    Nat → State → Nat → Nat → Nat → Option (List Nat) →
      Option (State × Option Int × Option (List Nat))
  | 0, s, len, _, _, readarr => if len > 0 then none else some (s, none, readarr)
  | fuel + 1, s, len, tx_ptr, rx_ptr, readarr =>
    if len > 0 then
      let xfer := (if len > max_xfer then max_xfer else len) % 65536
      let s1 := (mpsse_store T s (header cmd0 xfer)).1
      let buf := match writearr with
        | some w => (w.drop tx_ptr).take xfer
        | none => []
      let tx_ptr1 := match writearr with
        | some _ => tx_ptr + xfer
        | none => tx_ptr
      let r2 := mpsse_store T s1 buf
      if r2.2 ≠ 0 then some (r2.1, some r2.2, readarr)
      else
        match readarr with
        | some rx =>
          let r3 := mpsse_read T r2.1 rx rx_ptr xfer
          if r3.2.1 < 0 then some (r3.1, some r3.2.1, some r3.2.2)
          else xfer_loop T cmd0 max_xfer writearr fuel r3.1 (len - xfer) tx_ptr1
            (rx_ptr + xfer) (some r3.2.2)
        | none =>
          let r3 := mpsse_write T r2.1
          if r3.2 < 0 then some (r3.1, some r3.2, none)
          else xfer_loop T cmd0 max_xfer writearr fuel r3.1 (len - xfer) tx_ptr1 rx_ptr none
    else some (s, none, readarr)

/-- Method `FtdiSpi::ft2232_spi_wr_and_rd`.  `writearr` and `readarr` are `none`
for a null pointer; a non-null `readarr` holds the contents of the destination
before the call.  The result is the new state, the returned `int` and the
destination after the call; `none` means the loop did not end within `fuel`
iterations. -/
def ft2232_spi_wr_and_rd (K : Consts) (T : Transport) (fuel : Nat) (s : State)
    (writecnt : Nat) (writearr readarr : Option (List Nat)) :
    Option (State × Int × Option (List Nat)) :=
  let cmd0 := opcode K s writearr.isSome readarr.isSome
  let s1 := if s._cs_mode = CsMode.SPI_CS_AUTO then (clearCs T s).1 else s
  let s2 := (mpsse_write T s1).1
  match xfer_loop T cmd0 (max_xfer s readarr.isSome) writearr fuel s2 writecnt 0 0 readarr with
  | none => none
  | some (s3, some ret, rx) => some (s3, ret, rx)
  | some (s3, none, rx) =>
    let s4 := if s3._cs_mode = CsMode.SPI_CS_AUTO then (setCs T s3).1 else s3
    some (s4, 0, rx)

/-! ## The wrappers and the status poller -/

/-- Contents of an array of `n` bytes that was declared and not initialised:
byte `i` holds `junk i`. -/
def uninit (junk : Nat → Nat) (n : Nat) : List Nat := (List.range n).map junk

/-- Method `FtdiSpi::spi_put(uint8_t cmd, const uint8_t *tx, uint8_t *rx,
uint32_t len)`.  `jtx_junk` and `jrx_junk` are what the two local arrays hold
before they are written.  The result is the new state, the returned `int` and
the contents of `rx` after the call. -/
def spi_put_cmd (K : Consts) (T : Transport) (fuel : Nat) (jtx_junk jrx_junk : Nat → Nat)
    (s : State) (cmd : Nat) (tx rx : Option (List Nat)) (len : Nat) :
    Option (State × Int × Option (List Nat)) :=
  let xfer_len := (len + 1) % 2 ^ 32
  let jtx0 := memcpy (uninit jtx_junk xfer_len) 0 [cmd] 1
  let jtx := match tx with
    | some t => memcpy jtx0 1 t len
    | none => jtx0
  match ft2232_spi_wr_and_rd K T fuel s xfer_len (some jtx)
      (match rx with
        | some _ => some (uninit jrx_junk xfer_len)
        | none => none) with
  | none => none
  | some (s1, _, jrx) =>
    some (s1, 0,
      match rx, jrx with
      | some r, some j => some (memcpy r 0 (j.drop 1) len)
      | _, _ => rx)

/-- Method `FtdiSpi::spi_put(const uint8_t *tx, uint8_t *rx, uint32_t len)`. -/
def spi_put (K : Consts) (T : Transport) (fuel : Nat) (s : State)
    (tx rx : Option (List Nat)) (len : Nat) : Option (State × Int × Option (List Nat)) :=
  ft2232_spi_wr_and_rd K T fuel s len tx rx

/-- The `do ... while` loop of `spi_wait`; `count` is a `uint32_t`.  The first
argument bounds the number of iterations and `fuel` the loop of each transfer.
The result is the state, `count` and `rx` when the loop is left. -/
def wait_loop (K : Consts) (T : Transport) (fuel mask cond timeout : Nat) :
    Nat → State → Nat → Nat → Option (State × Nat × Nat)
  | 0, _, _, _ => none
  | n + 1, s, count, rx =>
    match ft2232_spi_wr_and_rd K T fuel s 1 none (some [rx]) with
    | none => none
    | some (s1, _, out) =>
      let rx1 := match out with
        | some (b :: _) => b
        | _ => rx
      let count1 := (count + 1) % 2 ^ 32
      if count1 = timeout then some (s1, count1, rx1)
      else if rx1 &&& mask ≠ cond then wait_loop K T fuel mask cond timeout n s1 count1 rx1
      else some (s1, count1, rx1)

/-- Method `FtdiSpi::spi_wait`, without its `verbose` argument, which only
prints.  `rx0` is what the local `rx` holds before the first read.  The result
is the new state, the returned `int` and the last value of `rx`, which the
timeout message prints. -/
def spi_wait (K : Consts) (T : Transport) (fuel : Nat) (s : State)
    (cmd mask cond timeout rx0 : Nat) : Option (State × Int × Nat) :=
  let s1 := setCSmode s CsMode.SPI_CS_MANUAL
  let s2 := (clearCs T s1).1
  match ft2232_spi_wr_and_rd K T fuel s2 1 (some [cmd]) none with
  | none => none
  | some (s3, _, _) =>
    match wait_loop K T fuel mask cond timeout fuel s3 0 rx0 with
    | none => none
    | some (s4, count, rx) =>
      let s5 := (setCs T s4).1
      let s6 := setCSmode s5 CsMode.SPI_CS_AUTO
      if count = timeout then some (s6, -(K.ETIME : Int), rx) else some (s6, 0, rx)

/-- Method `FtdiSpi::ft2232_spi_wr_then_rd`; the returned value is a
`uint32_t` converted to `int`, which gives back the `int` it was assigned. -/
def ft2232_spi_wr_then_rd (K : Consts) (T : Transport) (fuel : Nat) (s : State)
    (tx_data : Option (List Nat)) (tx_len : Nat) (rx_data : Option (List Nat)) (rx_len : Nat) :
    Option (State × Int × Option (List Nat)) :=
  let s1 := setCSmode s CsMode.SPI_CS_MANUAL
  let s2 := (clearCs T s1).1
  match ft2232_spi_wr_and_rd K T fuel s2 tx_len tx_data none with
  | none => none
  | some (s3, ret, _) =>
    if ret ≠ 0 then
      let s4 := (setCs T s3).1
      some (setCSmode s4 CsMode.SPI_CS_AUTO, ret, rx_data)
    else
      match ft2232_spi_wr_and_rd K T fuel s3 rx_len none rx_data with
      | none => none
      | some (s4, ret1, out) =>
        let s5 := (setCs T s4).1
        some (setCSmode s5 CsMode.SPI_CS_AUTO, ret1, out)

/-- The command-byte wrapper as the specification words it:
`transfer([cmd] + tx, rx_with_leading_byte, len + 1)` followed by discarding the
first byte of the response.  The result is the state after the transfer and the
response without its first byte. -/
def transferWithCommandByte_spec (K : Consts) (T : Transport) (fuel : Nat) (s : State)
    (cmd : Nat) (tx : List Nat) (rx_with_leading_byte : Option (List Nat)) (len : Nat) :
    Option (State × Option (List Nat)) :=
  (ft2232_spi_wr_and_rd K T fuel s (len + 1) (some ([cmd] ++ tx)) rx_with_leading_byte).map
    (fun r => (r.1, r.2.2.map (fun response => response.drop 1)))

/-! ## Describing runs -/

/-- The state once the calls `evs` have been made to the transport: they are
appended to the trace and counted. -/
def State.after (s : State) (evs : List Ev) : State :=
  { s with
    trace := s.trace ++ evs
    nStore := s.nStore + evs.countP (fun e => match e with | Ev.store _ => true | _ => false)
    nFlush := s.nFlush + evs.countP (fun e => match e with | Ev.flush => true | _ => false)
    nRead := s.nRead + evs.countP (fun e => match e with | Ev.read _ => true | _ => false)
    nGpio := s.nGpio + evs.countP (fun e => match e with
      | Ev.gpio_set _ => true | Ev.gpio_clear _ => true | _ => false) }

/-- The state with the recorded CS level `_cs` set to `v`. -/
def State.withCs (s : State) (v : Nat) : State := { s with _cs := v }

/-- Number of chunks of a transfer of `L` bytes with chunk limit `M`: the
ceiling of `L / M`. -/
def chunkCount (M L : Nat) : Nat := (L + M - 1) / M

/-- Length of chunk `k` (counted from 0): what remains after `k` full chunks,
capped at `M`. -/
def chunkLen (M L k : Nat) : Nat := min (L - k * M) M

/-- Payload of chunk `k` of a write buffer. -/
def chunkPayload (M L : Nat) (w : List Nat) (k : Nat) : List Nat :=
  (w.drop (k * M)).take (chunkLen M L k)

/-- The calls chunk `k` of a transfer makes when none fails: the 3-byte header,
the payload (empty without a write buffer), then the read of the chunk, or the
flush when nothing is read. -/
def chunkEvents (cmd0 M L : Nat) (writearr : Option (List Nat)) (has_read : Bool)
    (k : Nat) : List Ev :=
  [Ev.store (header cmd0 (chunkLen M L k)),
   Ev.store (match writearr with
     | some w => chunkPayload M L w k
     | none => []),
   if has_read then Ev.read (chunkLen M L k) else Ev.flush]

/-- A transport none of whose store, flush and read calls fails, and whose
reads deliver as many bytes as were asked for. -/
def Transport.Succeeds (T : Transport) : Prop :=
  (∀ i b, T.store i b = 0) ∧ (∀ i, 0 ≤ T.flush i) ∧
  (∀ i n, 0 ≤ (T.read i n).1) ∧ (∀ i n, (T.read i n).2.length = n)

/-- The calls of all the chunks of a transfer of `L` bytes, in order. -/
def chunksEvents (K : Consts) (s : State) (L : Nat) (writearr : Option (List Nat))
    (has_read : Bool) : List Ev :=
  (List.range (chunkCount (max_xfer s has_read) L)).flatMap
    (chunkEvents (opcode K s writearr.isSome has_read) (max_xfer s has_read) L writearr has_read)

/-- Whether a call is a `gpio_set` or a `gpio_clear`. -/
def Ev.isGpio : Ev → Bool
  | Ev.gpio_set _ => true
  | Ev.gpio_clear _ => true
  | _ => false

/-- The two GPIO commands of `clearCs`. -/
def clearCsEvents (s : State) : List Ev :=
  [Ev.gpio_clear s._cs_bits, Ev.gpio_clear s._cs_bits]

/-- The two GPIO commands of `setCs`: `gpio_set` of the CS mask, unless the
byte `_cs` it was copied to is 0. -/
def setCsEvents (s : State) : List Ev :=
  if s._cs_bits % 256 = 0 then [Ev.gpio_clear s._cs_bits, Ev.gpio_clear s._cs_bits]
  else [Ev.gpio_set s._cs_bits, Ev.gpio_set s._cs_bits]

/-- The calls a whole transfer makes when none fails: in AUTO mode the CS
assertion, then the initial flush and the chunks, and in AUTO mode the CS
deassertion. -/
def transferEvents (K : Consts) (s : State) (L : Nat) (writearr : Option (List Nat))
    (has_read : Bool) : List Ev :=
  (if s._cs_mode = CsMode.SPI_CS_AUTO then clearCsEvents s else []) ++
  [Ev.flush] ++ chunksEvents K s L writearr has_read ++
  (if s._cs_mode = CsMode.SPI_CS_AUTO then setCsEvents s else [])

/-- The bytes the reads of a transfer deliver, chunk after chunk, when `r0`
reads were made before the transfer. -/
def responses (T : Transport) (r0 M L : Nat) : List Nat :=
  (List.range (chunkCount M L)).flatMap (fun k => (T.read (r0 + k) (chunkLen M L k)).2)

/-- A transport all of whose calls succeed; read `i` answers with bytes that
depend on `i` and on the position in the answer. -/
def okTransport : Transport where
  store := fun _ _ => 0
  flush := fun _ => 0
  read := fun i n => ((n : Int), (List.range n).map (fun p => (16 * i + p) % 256))
  gpio := fun _ => true

/-- A state as the constructor leaves it for the default pins: CS on bit 3,
clock on bit 0, mode 0, CS mode AUTO, CS released, with a transport buffer of
`B` bytes and an empty trace. -/
def initState (K : Consts) (B : Nat) : State where
  _cs_bits := 8
  _clk := 1
  _holdn := 0
  _wpn := 0
  _cs := 8
  _cs_mode := CsMode.SPI_CS_AUTO
  _wr_mode := K.MPSSE_WRITE_NEG
  _rd_mode := 0
  _clk_idle := 0
  _buffer_size := B
  trace := []
  nStore := 0
  nFlush := 0
  nRead := 0
  nGpio := 0

/-- The calls of the one-byte write of `cmd` in MANUAL mode. -/
def writeCmdEvents (K : Consts) (s : State) (cmd : Nat) : List Ev :=
  [Ev.flush, Ev.store [opcode K s true false, 0, 0], Ev.store [cmd], Ev.flush]

/-- The calls of one read cycle of `spi_wait`: a one-byte read-only transfer in
MANUAL mode. -/
def readCycleEvents (K : Consts) (s : State) : List Ev :=
  [Ev.flush, Ev.store [opcode K s false true, 0, 0], Ev.store [], Ev.read 1]

/-- The byte the `i`-th read of the transport delivers when one byte is asked
for. -/
def sample (T : Transport) (i : Nat) : Nat := ((T.read i 1).2).headD 0

/-- The calls `spi_wait` makes when it is left at the end of read cycle `k` and
no call fails: CS assertion, the write of `cmd`, `k` read cycles, CS
deassertion. -/
def waitEvents (K : Consts) (s : State) (cmd k : Nat) : List Ev :=
  clearCsEvents s ++ writeCmdEvents K s cmd ++
    (List.range k).flatMap (fun _ => readCycleEvents K s) ++ setCsEvents s

/-- A transport whose first `mpsse_store` fails with -1 and whose other calls
all succeed. -/
def firstStoreFails : Transport where
  store := fun i _ => if i = 0 then -1 else 0
  flush := fun _ => 0
  read := fun i n => ((n : Int), (List.range n).map (fun p => (16 * i + p) % 256))
  gpio := fun _ => true

/-- A transport whose second `mpsse_store` fails with -1 and whose other calls
all succeed. -/
def secondStoreFails : Transport where
  store := fun i _ => if i = 1 then -1 else 0
  flush := fun _ => 0
  read := fun i n => ((n : Int), (List.range n).map (fun p => (16 * i + p) % 256))
  gpio := fun _ => true

/-! ## The constructor -/

/-- Modelled from the spec: the pin configuration `spi_pins_conf_t`, whose
declaration is not in the source file: the bit-masks of chip select, clock,
hold and write-protect, each within the 8-bit GPIO byte and zero for a pin that
is not set. -/
structure spi_pins_conf_t where
  cs_pin : Nat
  sck_pin : Nat
  holdn_pin : Nat
  wpn_pin : Nat
  deriving DecidableEq, Repr

/-- Modelled from the spec: the `SPI_endianness` enumeration of the class
declaration, which is not in the source file. -/
inductive Endianness where
  | SPI_MSB_FIRST
  | SPI_LSB_FIRST
  deriving DecidableEq, Repr

/-- Modelled from the spec: `setEndianness` of the class declaration.  The spec
gives the bit order no part in the members the source file reads, so the call
leaves them as they are. -/
def setEndianness (s : State) (_endian : Endianness) : State := s

/-- Call of `init(latency, bitmask_mode, mode)` of the base class: records the
call; its result is not used. -/
def init (s : State) (latency bitmask_mode mode : Nat) : State :=
  { s with trace := s.trace ++ [Ev.init latency bitmask_mode mode] }

/-- Call of `gpio_set_output(mask)`: records the call; its result is not
used. -/
def gpio_set_output (s : State) (mask : Nat) : State :=
  { s with trace := s.trace ++ [Ev.gpio_set_output mask] }

/-- Constructor `FtdiSpi::FtdiSpi(const cable_t &cable, spi_pins_conf_t
spi_config, uint32_t clkHZ, int8_t verbose)`.  `raw` is the object once the
base class is constructed: the members the constructor does not write, and the
trace so far, are kept from it. -/
def FtdiSpi_pins (K : Consts) (T : Transport) (raw : State) (spi_config : spi_pins_conf_t) :
    State :=
  let s0 : State := { raw with _cs_bits := 1 <<< 3, _clk := 1 <<< 0, _holdn := 0, _wpn := 0 }
  let s1 : State := if spi_config.cs_pin ≠ 0 then { s0 with _cs_bits := spi_config.cs_pin } else s0
  let s2 : State := if spi_config.sck_pin ≠ 0 then { s1 with _clk := spi_config.sck_pin } else s1
  let s3 : State :=
    if spi_config.holdn_pin ≠ 0 then { s2 with _holdn := spi_config.holdn_pin } else s2
  let s4 : State := if spi_config.wpn_pin ≠ 0 then { s3 with _wpn := spi_config.wpn_pin } else s3
  let s5 := init s4 1 s4._cs_bits K.BITMODE_MPSSE
  let s6 := gpio_set_output s5 (s5._cs_bits ||| s5._holdn ||| s5._wpn)
  let s7 := (gpio_set T s6 (s6._cs_bits ||| s6._holdn ||| s6._wpn)).1
  let s8 := setMode K T s7 0
  let s9 := setCSmode s8 CsMode.SPI_CS_AUTO
  setEndianness s9 Endianness.SPI_MSB_FIRST

/-- A transport whose first GPIO command succeeds and whose later ones fail. -/
def firstGpioOnly : Transport where
  store := fun _ _ => 0
  flush := fun _ => 0
  read := fun i n => ((n : Int), (List.range n).map (fun p => (16 * i + p) % 256))
  gpio := fun i => decide (i = 0)

/-! ## Lemmas -/

theorem after_nil (s : State) : s.after [] = s := by
  cases s; simp [State.after]

theorem after_after (s : State) (a b : List Ev) : (s.after a).after b = s.after (a ++ b) := by
  cases s; simp [State.after, List.countP_append, Nat.add_assoc]

theorem mul_lt_of_lt_chunkCount {M L j : Nat} (hM : 1 ≤ M) (h : j < chunkCount M L) :
    j * M < L := by
  unfold chunkCount at h
  have h1 : (j + 1) * M ≤ L + M - 1 := (Nat.le_div_iff_mul_le (by omega)).1 h
  have h2 : (j + 1) * M = j * M + M := by ring
  omega

theorem le_chunkCount_mul {M L : Nat} (hM : 1 ≤ M) : L ≤ chunkCount M L * M := by
  unfold chunkCount
  have h1 := Nat.div_add_mod (L + M - 1) M
  have h2 : (L + M - 1) % M < M := Nat.mod_lt _ (by omega)
  have h3 : M * ((L + M - 1) / M) = (L + M - 1) / M * M := Nat.mul_comm _ _
  omega

theorem mpsse_store_eq (T : Transport) (s : State) (b : List Nat) :
    mpsse_store T s b = (s.after [Ev.store b], T.store s.nStore b) := by
  cases s; simp [mpsse_store, State.after]

theorem mpsse_write_eq (T : Transport) (s : State) :
    mpsse_write T s = (s.after [Ev.flush], T.flush s.nFlush) := by
  cases s; simp [mpsse_write, State.after]

theorem mpsse_read_eq (T : Transport) (s : State) (rx : List Nat) (off len : Nat) :
    mpsse_read T s rx off len =
      (s.after [Ev.read len], (T.read s.nRead len).1,
        memcpy rx off (T.read s.nRead len).2 len) := by
  cases s; simp [mpsse_read, State.after]

theorem gpio_set_eq (T : Transport) (s : State) (m : Nat) :
    gpio_set T s m = (s.after [Ev.gpio_set m], T.gpio s.nGpio) := by
  cases s; simp [gpio_set, State.after]

theorem gpio_clear_eq (T : Transport) (s : State) (m : Nat) :
    gpio_clear T s m = (s.after [Ev.gpio_clear m], T.gpio s.nGpio) := by
  cases s; simp [gpio_clear, State.after]

theorem chunkLen_pos {M L j : Nat} (hM : 1 ≤ M) (h : j < chunkCount M L) :
    0 < chunkLen M L j := by
  have := mul_lt_of_lt_chunkCount hM h
  unfold chunkLen; omega

theorem xfer_eq_chunkLen {M L j : Nat} (hM2 : M < 65536) :
    (if L - j * M > M then M else L - j * M) % 65536 = chunkLen M L j := by
  unfold chunkLen
  split <;> omega

theorem sub_chunkLen (M L j : Nat) : L - j * M - chunkLen M L j = L - (j + 1) * M := by
  unfold chunkLen
  have : (j + 1) * M = j * M + M := by ring
  omega

/-- What `memcpy` of a full chunk leaves in a destination of `L` bytes. -/
theorem memcpy_chunk {M L j : Nat} (r d : List Nat) (hr : r.length = L)
    (hd : d.length = chunkLen M L j) (hj : j * M < L) :
    (memcpy r (j * M) d (chunkLen M L j)).length = L ∧
    (memcpy r (j * M) d (chunkLen M L j)).take ((j + 1) * M) = r.take (j * M) ++ d := by
  have hc : chunkLen M L j ≤ L - j * M := by unfold chunkLen; omega
  have hdt : d.take (chunkLen M L j) = d := List.take_of_length_le (by omega)
  unfold memcpy
  rw [hdt]
  constructor
  · simp [List.length_append, List.length_take, List.length_drop, hr, hd]; omega
  · have h1 : (j + 1) * M = j * M + M := by ring
    have hlen : (List.take (j * M) r ++ d).length = j * M + chunkLen M L j := by
      simp [List.length_append, List.length_take, hr, hd]; omega
    by_cases hfull : chunkLen M L j = M
    · exact List.take_left' (by rw [hlen, hfull, h1])
    · have hrest : List.drop (j * M + d.length) r = [] :=
        List.drop_of_length_le (by unfold chunkLen at hfull hd; omega)
      rw [hrest, List.append_nil]
      exact List.take_of_length_le (by unfold chunkLen at hfull hlen; omega)

theorem after_nRead (s : State) (evs : List Ev) :
    (s.after evs).nRead =
      s.nRead + evs.countP (fun e => match e with | Ev.read _ => true | _ => false) := rfl

theorem after_nFlush (s : State) (evs : List Ev) :
    (s.after evs).nFlush =
      s.nFlush + evs.countP (fun e => match e with | Ev.flush => true | _ => false) := rfl

theorem after_nStore (s : State) (evs : List Ev) :
    (s.after evs).nStore =
      s.nStore + evs.countP (fun e => match e with | Ev.store _ => true | _ => false) := rfl

theorem after_nGpio (s : State) (evs : List Ev) :
    (s.after evs).nGpio =
      s.nGpio + evs.countP (fun e => match e with
        | Ev.gpio_set _ => true | Ev.gpio_clear _ => true | _ => false) := rfl

theorem chunkLen_full {M L j : Nat} (h : (j + 1) * M < L) : chunkLen M L j = M := by
  unfold chunkLen
  have : (j + 1) * M = j * M + M := by ring
  omega

theorem xfer_loop_ok (T : Transport) (hT : T.Succeeds) (cmd0 M L : Nat) (hM1 : 1 ≤ M)
    (hM2 : M < 65536) (w : Option (List Nat)) (r0 : Nat) :
    ∀ (m j fuel : Nat) (s : State) (rx : Option (List Nat)) (tx_ptr rx_ptr : Nat),
      j + m = chunkCount M L → m ≤ fuel → (rx.isSome → s.nRead = r0 + j) →
      (∀ r, rx = some r → r.length = L) → (0 < m → w.isSome → tx_ptr = j * M) →
      (0 < m → rx.isSome → rx_ptr = j * M) →
      xfer_loop T cmd0 M w fuel s (L - j * M) tx_ptr rx_ptr rx =
        some (s.after ((List.range' j m).flatMap (chunkEvents cmd0 M L w rx.isSome)), none,
          rx.map (fun r => r.take (j * M) ++
            (List.range' j m).flatMap (fun k => (T.read (r0 + k) (chunkLen M L k)).2))) := by
  intro m
  induction m with
  | zero =>
    intro j fuel s rx tx_ptr rx_ptr hj _ _ hlen _ _
    have h0 : L - j * M = 0 := by
      have := le_chunkCount_mul (L := L) hM1
      rw [← hj] at this; simp at this; omega
    have hrx : rx.map (fun r => r.take (j * M)) = rx := by
      cases rx with
      | none => rfl
      | some r =>
        simp only [Option.map_some']
        rw [List.take_of_length_le]
        rw [hlen r rfl]; omega
    cases fuel <;> simp [xfer_loop, h0, after_nil, hrx]
  | succ m ih =>
    intro j fuel s rx tx_ptr rx_ptr hj hfuel hrd hlen htx hrx
    obtain ⟨f, rfl⟩ : ∃ f, fuel = f + 1 := ⟨fuel - 1, by omega⟩
    have hjn : j < chunkCount M L := by omega
    have hpos := mul_lt_of_lt_chunkCount hM1 hjn
    have hcl := chunkLen_pos hM1 hjn
    obtain ⟨hst, hfl, hrd0, hrdl⟩ := hT
    have hlenpos : L - j * M > 0 := by omega
    have htx0 := htx (by omega)
    have hrx0 := hrx (by omega)
    have hnext : 0 < m → j * M + chunkLen M L j = (j + 1) * M := by
      intro hm
      have h1 : j + 1 < chunkCount M L := by omega
      have h2 := mul_lt_of_lt_chunkCount hM1 h1
      rw [chunkLen_full h2]; ring
    rw [xfer_loop]
    simp only [hlenpos, if_true, xfer_eq_chunkLen hM2, mpsse_store_eq, mpsse_write_eq,
      mpsse_read_eq, hst, after_after, sub_chunkLen]
    cases rx with
    | none =>
      have hflush : ∀ i, ¬ T.flush i < 0 := fun i => not_lt.mpr (hfl i)
      simp only [ne_eq, not_true_eq_false, if_false, hflush]
      cases w with
      | none =>
        rw [ih (j + 1) f _ none _ _ (by omega) (by omega) (by simp) (by simp) (by simp) (by simp)]
        rw [after_after, List.range'_succ, List.flatMap_cons]
        rfl
      | some wl =>
        have htx1 : tx_ptr = j * M := htx0 rfl
        subst htx1
        rw [ih (j + 1) f _ none _ _ (by omega) (by omega) (by simp) (by simp)
          (by intro hm _; exact hnext hm) (by simp)]
        rw [after_after, List.range'_succ, List.flatMap_cons]
        rfl
    | some r =>
      have hrL := hlen r rfl
      have hrx1 : rx_ptr = j * M := hrx0 rfl
      have hnr : s.nRead = r0 + j := hrd rfl
      subst hrx1
      have hread : ∀ i n, ¬ (T.read i n).1 < 0 := fun i n => not_lt.mpr (hrd0 i n)
      have hcnt : ∀ a b, (s.after ([Ev.store a] ++ [Ev.store b])).nRead = r0 + j := by
        intro a b; rw [after_nRead, hnr]; simp
      simp only [ne_eq, not_true_eq_false, if_false, hread, hcnt]
      obtain ⟨hml, hmt⟩ :=
        memcpy_chunk r (T.read (r0 + j) (chunkLen M L j)).2 hrL (hrdl _ _) hpos
      have hnr1 : ∀ a b c, (s.after ([Ev.store a] ++ [Ev.store b] ++ [Ev.read c])).nRead =
          r0 + (j + 1) := by
        intro a b c; rw [after_nRead, hnr]; simp; omega
      cases w with
      | none =>
        rw [ih (j + 1) f _ (some _) _ _ (by omega) (by omega) (fun _ => hnr1 _ _ _)
          (by intro r1 hr1; cases hr1; exact hml) (by simp) (by intro hm _; exact hnext hm)]
        rw [after_after, List.range'_succ, List.flatMap_cons]
        simp only [Option.map_some', hmt, List.range'_succ, List.flatMap_cons, List.append_assoc]
        rfl
      | some wl =>
        have htx1 : tx_ptr = j * M := htx0 rfl
        subst htx1
        rw [ih (j + 1) f _ (some _) _ _ (by omega) (by omega) (fun _ => hnr1 _ _ _)
          (by intro r1 hr1; cases hr1; exact hml) (by intro hm _; exact hnext hm)
          (by intro hm _; exact hnext hm)]
        rw [after_after, List.range'_succ, List.flatMap_cons]
        simp only [Option.map_some', hmt, List.range'_succ, List.flatMap_cons, List.append_assoc]
        rfl

theorem clearCs_eq (T : Transport) (s : State) :
    clearCs T s =
      ((s.withCs 0).after (clearCsEvents s), T.gpio s.nGpio || T.gpio (s.nGpio + 1)) := by
  cases s; simp [clearCs, confCs, gpio_clear, State.after, State.withCs, clearCsEvents]

theorem setCs_eq (T : Transport) (s : State) :
    setCs T s =
      ((s.withCs (s._cs_bits % 256)).after (setCsEvents s),
        T.gpio s.nGpio || T.gpio (s.nGpio + 1)) := by
  cases s
  simp only [setCs, confCs, gpio_set, gpio_clear, State.after, State.withCs, setCsEvents]
  split <;> simp

theorem setCsEvents_of_ne (s : State) (h : s._cs_bits % 256 ≠ 0) :
    setCsEvents s = [Ev.gpio_set s._cs_bits, Ev.gpio_set s._cs_bits] := by
  simp [setCsEvents, h]

theorem setCsEvents_after (s : State) (a : List Ev) :
    setCsEvents (s.after a) = setCsEvents s := rfl

theorem setCsEvents_withCs (s : State) (v : Nat) :
    setCsEvents (s.withCs v) = setCsEvents s := rfl

theorem withCs_after (s : State) (v : Nat) (a : List Ev) :
    (s.withCs v).after a = (s.after a).withCs v := rfl

theorem withCs_withCs (s : State) (u v : Nat) : (s.withCs u).withCs v = s.withCs v := rfl

theorem withCs_cs_mode (s : State) (v : Nat) : (s.withCs v)._cs_mode = s._cs_mode := rfl

theorem withCs_cs_bits (s : State) (v : Nat) : (s.withCs v)._cs_bits = s._cs_bits := rfl

theorem withCs_nRead (s : State) (v : Nat) : (s.withCs v).nRead = s.nRead := rfl

theorem after_cs_mode (s : State) (evs : List Ev) : (s.after evs)._cs_mode = s._cs_mode := rfl

theorem after_cs_bits (s : State) (evs : List Ev) : (s.after evs)._cs_bits = s._cs_bits := rfl

/-- A transfer over a transport that succeeds returns 0, makes the calls of
`transferEvents` and leaves the responses in the read buffer. -/
theorem wr_and_rd_ok (K : Consts) (T : Transport) (hT : T.Succeeds) (s : State) (L fuel : Nat)
    (w rx : Option (List Nat)) (hM : 1 ≤ max_xfer s rx.isSome)
    (hfuel : chunkCount (max_xfer s rx.isSome) L ≤ fuel) (hlen : ∀ r, rx = some r → r.length = L) :
    ft2232_spi_wr_and_rd K T fuel s L w rx =
      some ((if s._cs_mode = CsMode.SPI_CS_AUTO then s.withCs (s._cs_bits % 256) else s).after
            (transferEvents K s L w rx.isSome), 0,
          rx.map (fun _ => responses T s.nRead (max_xfer s rx.isSome) L)) := by
  have hM2 : max_xfer s rx.isSome < 65536 := Nat.mod_lt _ (by decide)
  have key := fun (s2 : State) (h2 : rx.isSome → s2.nRead = s.nRead + 0) =>
    xfer_loop_ok T hT (opcode K s w.isSome rx.isSome) (max_xfer s rx.isSome) L hM hM2 w s.nRead
      (chunkCount (max_xfer s rx.isSome) L) 0 fuel s2 rx 0 0 (by simp) hfuel h2 hlen
      (by simp) (by simp)
  simp only [Nat.zero_mul, Nat.sub_zero, List.take_zero, List.nil_append,
    ← List.range_eq_range'] at key
  unfold ft2232_spi_wr_and_rd
  by_cases hauto : s._cs_mode = CsMode.SPI_CS_AUTO
  · simp only [if_pos hauto, clearCs_eq, mpsse_write_eq, after_after]
    rw [key _ (by intro _; rw [after_nRead, withCs_nRead]; simp [clearCsEvents])]
    simp only [after_cs_mode, withCs_cs_mode, if_pos hauto]
    rw [setCs_eq]
    simp only [after_cs_bits, withCs_cs_bits, withCs_after, withCs_withCs, after_after,
      setCsEvents_after, setCsEvents_withCs]
    simp only [← withCs_after, transferEvents, chunksEvents, responses, if_pos hauto,
      List.append_assoc]
  · simp only [if_neg hauto, mpsse_write_eq, after_after]
    rw [key _ (by intro _; rw [after_nRead]; simp)]
    simp only [after_cs_mode, if_neg hauto, transferEvents, chunksEvents, responses,
      List.append_assoc, List.nil_append, List.append_nil, after_after]

/-- For a chunk of 1 to 65536 bytes the header carries `xfer - 1`, low byte
first. -/
theorem header_eq (cmd0 c : Nat) (h1 : 1 ≤ c) (h2 : c ≤ 65536) :
    header cmd0 c = [cmd0, (c - 1) % 256, (c - 1) / 256] := by
  have hx : (c + 2 ^ 32 - 1) % 2 ^ 32 = c - 1 := by omega
  have ha : ∀ x : Nat, x &&& 0xff = x % 256 := fun x => by
    have := Nat.and_pow_two_sub_one_eq_mod x 8
    simpa using this
  unfold header
  rw [hx, ha, ha, Nat.shiftRight_zero, Nat.shiftRight_eq_div_pow]
  have h3 : (c - 1) / 2 ^ 8 % 256 % 256 = (c - 1) / 256 := by omega
  rw [h3, Nat.mod_mod]

theorem sum_chunkLen (M L n : Nat) :
    ((List.range n).map (chunkLen M L)).sum = min L (n * M) := by
  induction n with
  | zero => simp
  | succ n ih =>
    rw [List.sum_range_succ, ih]
    have : (n + 1) * M = n * M + M := by ring
    unfold chunkLen
    omega

theorem flatMap_chunkPayload (M L n : Nat) (w : List Nat) (hw : w.length = L) :
    (List.range n).flatMap (chunkPayload M L w) = w.take (n * M) := by
  induction n with
  | zero => simp
  | succ n ih =>
    rw [List.range_succ, List.flatMap_append, ih, List.flatMap_singleton]
    have h1 : (n + 1) * M = n * M + M := by ring
    rw [h1, List.take_add]
    congr 1
    unfold chunkPayload chunkLen
    by_cases h : M ≤ L - n * M
    · rw [Nat.min_eq_right h]
    · have h2 : min (L - n * M) M = L - n * M := Nat.min_eq_left (by omega)
      rw [h2, List.take_of_length_le, List.take_of_length_le]
      · rw [List.length_drop]; omega
      · rw [List.length_drop]; omega

theorem length_responses (T : Transport) (hT : T.Succeeds) (r0 M L : Nat) (hM : 1 ≤ M) :
    (responses T r0 M L).length = L := by
  unfold responses
  rw [List.length_flatMap]
  have h : (List.length ∘ fun k => (T.read (r0 + k) (chunkLen M L k)).2) = chunkLen M L := by
    funext k; simp [hT.2.2.2]
  rw [h, sum_chunkLen]
  exact Nat.min_eq_left (le_chunkCount_mul hM)

theorem after_trace (s : State) (evs : List Ev) : (s.after evs).trace = s.trace ++ evs := rfl

theorem withCs_trace (s : State) (v : Nat) : (s.withCs v).trace = s.trace := rfl

theorem ite_withCs_trace (s : State) (c : Prop) [Decidable c] (v : Nat) :
    (if c then s.withCs v else s).trace = s.trace := by
  split <;> rfl

theorem chunkCount_4096 (L : Nat) : chunkCount 4096 L = (L + 4095) / 4096 := by
  unfold chunkCount; congr 1

theorem max_xfer_write (s : State) : max_xfer s false = 4096 := by
  simp [max_xfer]

theorem okTransport_succeeds : okTransport.Succeeds := by
  refine ⟨fun _ _ => rfl, fun _ => le_refl _, fun _ n => ?_, fun _ n => ?_⟩
  · exact Int.ofNat_nonneg n
  · simp [okTransport]

/-! ## C1: write-only transfers -/

/-- C1: a write-only transfer of `L ≥ 1` bytes over a transport whose calls all
succeed returns 0 and appends to the trace, between the CS commands of AUTO
mode and after the initial flush, exactly `⌈L / 4096⌉` chunks, each made of a
3-byte header, a payload and one flush.  Chunk `k` has `min (L - 4096 k) 4096`
bytes, which is at least 1; the chunk lengths sum to `L`; bytes 1 and 2 of the
header are the low and the high byte of the chunk length minus 1; and the
payloads concatenated are the write buffer. -/
theorem write_only_transfer_chunks (K : Consts) (T : Transport) (hT : T.Succeeds)
    (s : State) (tx : List Nat) (L fuel : Nat) (hL : 1 ≤ L) (htx : tx.length = L)
    (hfuel : (L + 4095) / 4096 ≤ fuel) :
    ∃ s1, ft2232_spi_wr_and_rd K T fuel s L (some tx) none = some (s1, 0, none) ∧
      s1.trace = s.trace ++
        ((if s._cs_mode = CsMode.SPI_CS_AUTO then clearCsEvents s else []) ++ [Ev.flush] ++
          (List.range ((L + 4095) / 4096)).flatMap (fun k =>
            [Ev.store [opcode K s true false,
                (min (L - k * 4096) 4096 - 1) % 256, (min (L - k * 4096) 4096 - 1) / 256],
              Ev.store ((tx.drop (k * 4096)).take (min (L - k * 4096) 4096)),
              Ev.flush]) ++
          (if s._cs_mode = CsMode.SPI_CS_AUTO then setCsEvents s else [])) ∧
      (((L + 4095) / 4096 - 1) * 4096 < L ∧ L ≤ (L + 4095) / 4096 * 4096) ∧
      (∀ k, k < (L + 4095) / 4096 → 1 ≤ min (L - k * 4096) 4096) ∧
      ((List.range ((L + 4095) / 4096)).map (fun k => min (L - k * 4096) 4096)).sum = L ∧
      (∀ c, 1 ≤ c → c ≤ 4096 →
        (c - 1) % 256 + 256 * ((c - 1) / 256) = c - 1 ∧ (c - 1) / 256 < 256) ∧
      (List.range ((L + 4095) / 4096)).flatMap
        (fun k => (tx.drop (k * 4096)).take (min (L - k * 4096) 4096)) = tx := by
  have hrun := wr_and_rd_ok K T hT s L fuel (some tx) none
    (by rw [Option.isSome_none, max_xfer_write]; decide)
    (by rw [Option.isSome_none, max_xfer_write, chunkCount_4096]; exact hfuel)
    (by intro r hr; cases hr)
  refine ⟨_, hrun, ?_, ⟨by omega, by omega⟩, ?_, ?_, ?_, ?_⟩
  · rw [after_trace, ite_withCs_trace]
    congr 1
    simp only [transferEvents, chunksEvents, Option.isSome_none, Option.isSome_some,
      max_xfer_write, chunkCount_4096]
    congr 2
    apply List.flatMap_congr
    intro k hk
    have hk1 : k < (L + 4095) / 4096 := List.mem_range.1 hk
    have hc : 1 ≤ chunkLen 4096 L k ∧ chunkLen 4096 L k ≤ 4096 := by
      unfold chunkLen; omega
    simp only [chunkEvents, chunkPayload, header_eq _ _ hc.1 (by omega)]
    rfl
  · intro k hk; omega
  · have := sum_chunkLen 4096 L ((L + 4095) / 4096)
    unfold chunkLen at this
    rw [this]; omega
  · intro c h1 h2; omega
  · have := flatMap_chunkPayload 4096 L ((L + 4095) / 4096) tx htx
    unfold chunkPayload chunkLen at this
    rw [this]
    exact List.take_of_length_le (by omega)

/-- Witness for C1: 5000 bytes go out as two chunks over `okTransport`. -/
theorem write_only_transfer_chunks_witness :
    (1 ≤ 5000 ∧ (List.replicate 5000 7).length = 5000 ∧ (5000 + 4095) / 4096 ≤ 2) ∧
    ∃ s1, ft2232_spi_wr_and_rd libftdi okTransport 2 (initState libftdi 4096) 5000
        (some (List.replicate 5000 7)) none = some (s1, 0, none) :=
  ⟨⟨by decide, List.length_replicate _ _, by decide⟩,
    (write_only_transfer_chunks libftdi okTransport okTransport_succeeds
      (initState libftdi 4096) (List.replicate 5000 7) 5000 2 (by decide)
      (List.length_replicate _ _) (by decide)).imp (fun _ h => h.1)⟩

/-! ## C2: read-only transfers -/

theorem max_xfer_read (s : State) (h : s._buffer_size ≤ 65535) :
    max_xfer s true = s._buffer_size := by
  simp only [max_xfer, if_true]; omega

/-- C2: a read-only transfer of `L ≥ 1` bytes, with a transport buffer of `B`
bytes (`1 ≤ B ≤ 65535`) and a transport whose calls all succeed, returns 0; every
chunk stores its 3-byte header and then an empty payload, so no write payload
byte is submitted; chunk `k` asks for `min (L - B k) B` bytes; and the read
buffer ends up holding the answers to these reads, in order, which are `L`
bytes in total. -/
theorem read_only_transfer_chunks (K : Consts) (T : Transport) (hT : T.Succeeds)
    (s : State) (rx : List Nat) (L fuel : Nat) (hrx : rx.length = L)
    (hB1 : 1 ≤ s._buffer_size) (hB2 : s._buffer_size ≤ 65535)
    (hfuel : (L + s._buffer_size - 1) / s._buffer_size ≤ fuel) :
    ∃ s1 out, ft2232_spi_wr_and_rd K T fuel s L none (some rx) = some (s1, 0, some out) ∧
      s1.trace = s.trace ++
        ((if s._cs_mode = CsMode.SPI_CS_AUTO then clearCsEvents s else []) ++ [Ev.flush] ++
          (List.range ((L + s._buffer_size - 1) / s._buffer_size)).flatMap (fun k =>
            [Ev.store [opcode K s false true,
                (min (L - k * s._buffer_size) s._buffer_size - 1) % 256,
                (min (L - k * s._buffer_size) s._buffer_size - 1) / 256],
              Ev.store [],
              Ev.read (min (L - k * s._buffer_size) s._buffer_size)]) ++
          (if s._cs_mode = CsMode.SPI_CS_AUTO then setCsEvents s else [])) ∧
      out = (List.range ((L + s._buffer_size - 1) / s._buffer_size)).flatMap
        (fun k => (T.read (s.nRead + k) (min (L - k * s._buffer_size) s._buffer_size)).2) ∧
      out.length = L := by
  have hmx := max_xfer_read s hB2
  have hrun := wr_and_rd_ok K T hT s L fuel none (some rx)
    (by rw [Option.isSome_some, hmx]; exact hB1)
    (by rw [Option.isSome_some, hmx]; exact hfuel)
    (by intro r hr; cases hr; exact hrx)
  rw [Option.map_some', Option.isSome_some, hmx] at hrun
  refine ⟨_, _, hrun, ?_, rfl, length_responses T hT _ _ _ hB1⟩
  · rw [after_trace, ite_withCs_trace]
    congr 1
    simp only [transferEvents, chunksEvents, Option.isSome_none, hmx]
    congr 2
    apply List.flatMap_congr
    intro k hk
    have hc : 1 ≤ chunkLen s._buffer_size L k :=
      chunkLen_pos hB1 (List.mem_range.1 hk)
    have hc2 : chunkLen s._buffer_size L k ≤ s._buffer_size := by unfold chunkLen; omega
    simp only [chunkEvents, header_eq _ _ hc (by omega)]
    rfl

/-- Witness for C2: 10 bytes are read in chunks of 4, 4 and 2 over
`okTransport`. -/
theorem read_only_transfer_chunks_witness :
    ∃ s1 out, ft2232_spi_wr_and_rd libftdi okTransport 3 (initState libftdi 4) 10 none
        (some (List.replicate 10 0)) = some (s1, 0, some out) ∧
      out = [0, 1, 2, 3, 16, 17, 18, 19, 32, 33] :=
  (read_only_transfer_chunks libftdi okTransport okTransport_succeeds (initState libftdi 4)
    (List.replicate 10 0) 10 3 (by decide) (by decide) (by decide)
    (by decide)).imp (fun _ h => h.imp (fun _ hh => ⟨hh.1, hh.2.2.1.trans (by decide)⟩))

/-! ## C3: the command header -/

/-- Whatever the transport answers, the calls the chunk loop makes are an
initial segment of the calls of the chunks, and all of them when the loop runs
to its end. -/
theorem xfer_loop_events (T : Transport) (cmd0 M L : Nat) (hM1 : 1 ≤ M) (hM2 : M < 65536)
    (w : Option (List Nat)) :
    ∀ (m j fuel : Nat) (s : State) (rx : Option (List Nat)) (tx_ptr rx_ptr : Nat)
      (res : State × Option Int × Option (List Nat)),
      j + m = chunkCount M L → (0 < m → w.isSome → tx_ptr = j * M) →
      xfer_loop T cmd0 M w fuel s (L - j * M) tx_ptr rx_ptr rx = some res →
      ∃ evs rest, res.1 = s.after evs ∧
        evs ++ rest = (List.range' j m).flatMap (chunkEvents cmd0 M L w rx.isSome) ∧
        (res.2.1 = none → rest = []) ∧ (∀ ret, res.2.1 = some ret → ret ≠ 0) := by
  intro m
  induction m with
  | zero =>
    intro j fuel s rx tx_ptr rx_ptr res hj _ h
    have h0 : L - j * M = 0 := by
      have := le_chunkCount_mul (L := L) hM1
      rw [← hj] at this; simp at this; omega
    rw [h0] at h
    cases fuel <;>
    · simp only [xfer_loop, gt_iff_lt, Nat.lt_irrefl, if_false] at h
      cases h
      exact ⟨[], [], (after_nil s).symm, rfl, (fun _ => rfl), (fun _ hr => by cases hr)⟩
  | succ m ih =>
    intro j fuel s rx tx_ptr rx_ptr res hj htx h
    have hjn : j < chunkCount M L := by omega
    have hpos := mul_lt_of_lt_chunkCount hM1 hjn
    have hlenpos : L - j * M > 0 := by omega
    have hnext : 0 < m → j * M + chunkLen M L j = (j + 1) * M := by
      intro hm
      have h1 : j + 1 < chunkCount M L := by omega
      have h2 := mul_lt_of_lt_chunkCount hM1 h1
      rw [chunkLen_full h2]; ring
    cases fuel with
    | zero => simp only [xfer_loop, hlenpos, if_true] at h; cases h
    | succ f =>
      rw [xfer_loop] at h
      simp only [hlenpos, if_true, xfer_eq_chunkLen hM2, mpsse_store_eq, mpsse_write_eq,
        mpsse_read_eq, after_after, sub_chunkLen] at h
      rw [List.range'_succ, List.flatMap_cons]
      cases w with
      | none =>
        cases rx with
        | none =>
          simp only [] at h
          split_ifs at h with hst hx
          · cases h
            exact ⟨_, _, rfl, by simp only [chunkEvents]; rfl, (fun hn => by cases hn),
              (fun _ hr => by cases hr; exact hst)⟩
          · cases h
            exact ⟨_, [] ++ _, rfl, by simp only [chunkEvents]; rfl, (fun hn => by cases hn),
              (fun _ hr => by cases hr; exact ne_of_lt hx)⟩
          · obtain ⟨evs, rest, h1, h2, h3⟩ := ih (j + 1) f _ none _ _ res (by omega)
              (by intro _ hw; cases hw) h
            refine ⟨_ ++ evs, rest, by rw [h1, after_after], ?_, h3⟩
            rw [List.append_assoc, h2]; rfl
        | some r =>
          simp only [] at h
          split_ifs at h with hst hx
          · cases h
            exact ⟨_, _, rfl, by simp only [chunkEvents]; rfl, (fun hn => by cases hn),
              (fun _ hr => by cases hr; exact hst)⟩
          · cases h
            exact ⟨_, [] ++ _, rfl, by simp only [chunkEvents]; rfl, (fun hn => by cases hn),
              (fun _ hr => by cases hr; exact ne_of_lt hx)⟩
          · obtain ⟨evs, rest, h1, h2, h3⟩ := ih (j + 1) f _ (some _) _ _ res (by omega)
              (by intro _ hw; cases hw) h
            refine ⟨_ ++ evs, rest, by rw [h1, after_after], ?_, h3⟩
            rw [List.append_assoc, h2]; rfl
      | some wl =>
        have htx1 : tx_ptr = j * M := htx (by omega) rfl
        subst htx1
        cases rx with
        | none =>
          simp only [] at h
          split_ifs at h with hst hx
          · cases h
            exact ⟨_, _, rfl, by simp only [chunkEvents]; rfl, (fun hn => by cases hn),
              (fun _ hr => by cases hr; exact hst)⟩
          · cases h
            exact ⟨_, [] ++ _, rfl, by simp only [chunkEvents]; rfl, (fun hn => by cases hn),
              (fun _ hr => by cases hr; exact ne_of_lt hx)⟩
          · obtain ⟨evs, rest, h1, h2, h3⟩ := ih (j + 1) f _ none _ _ res (by omega)
              (by intro hm _; exact hnext hm) h
            refine ⟨_ ++ evs, rest, by rw [h1, after_after], ?_, h3⟩
            rw [List.append_assoc, h2]; rfl
        | some r =>
          simp only [] at h
          split_ifs at h with hst hx
          · cases h
            exact ⟨_, _, rfl, by simp only [chunkEvents]; rfl, (fun hn => by cases hn),
              (fun _ hr => by cases hr; exact hst)⟩
          · cases h
            exact ⟨_, [] ++ _, rfl, by simp only [chunkEvents]; rfl, (fun hn => by cases hn),
              (fun _ hr => by cases hr; exact ne_of_lt hx)⟩
          · obtain ⟨evs, rest, h1, h2, h3⟩ := ih (j + 1) f _ (some _) _ _ res (by omega)
              (by intro hm _; exact hnext hm) h
            refine ⟨_ ++ evs, rest, by rw [h1, after_after], ?_, h3⟩
            rw [List.append_assoc, h2]; rfl

theorem withCs_self (s : State) : s.withCs s._cs = s := by
  cases s; rfl

/-- Whatever the transport answers, the calls a transfer that returns has made
are an initial segment of `transferEvents`, and all of them when it returns 0;
the recorded CS level is touched in AUTO mode only. -/
theorem wr_and_rd_events (K : Consts) (T : Transport) (s : State) (L fuel : Nat)
    (w rx : Option (List Nat)) (res : State × Int × Option (List Nat))
    (hM : 1 ≤ max_xfer s rx.isSome) (h : ft2232_spi_wr_and_rd K T fuel s L w rx = some res) :
    ∃ evs rest,
      res.1 = (s.withCs (if s._cs_mode = CsMode.SPI_CS_AUTO then
          (if res.2.1 = 0 then s._cs_bits % 256 else 0) else s._cs)).after evs ∧
      evs ++ rest = transferEvents K s L w rx.isSome ∧ (res.2.1 = 0 → rest = []) := by
  have hM2 : max_xfer s rx.isSome < 65536 := Nat.mod_lt _ (by decide)
  have key := fun (s2 : State) (r : State × Option Int × Option (List Nat)) =>
    xfer_loop_events T (opcode K s w.isSome rx.isSome) (max_xfer s rx.isSome) L hM hM2 w
      (chunkCount (max_xfer s rx.isSome) L) 0 fuel s2 rx 0 0 r (by simp) (by simp)
  simp only [Nat.zero_mul, Nat.sub_zero, ← List.range_eq_range'] at key
  unfold ft2232_spi_wr_and_rd at h
  simp only [clearCs_eq, mpsse_write_eq, setCs_eq] at h
  split at h
  · cases h
  · next s3 ret out heq =>
    cases h
    obtain ⟨evs, rest, h1, h2, _, h4⟩ := key _ _ heq
    simp only [] at h1
    subst h1
    have hret : ret ≠ 0 := h4 ret rfl
    by_cases hauto : s._cs_mode = CsMode.SPI_CS_AUTO
    · refine ⟨clearCsEvents s ++ [Ev.flush] ++ evs, rest ++ setCsEvents s, ?_, ?_, ?_⟩
      · simp only [if_pos hauto, if_neg hret, after_after, List.append_assoc]
      · simp only [transferEvents, chunksEvents, if_pos hauto, ← h2, List.append_assoc]
      · intro h0; exact absurd h0 hret
    · refine ⟨[Ev.flush] ++ evs, rest, ?_, ?_, ?_⟩
      · simp only [if_neg hauto, after_after, withCs_self, List.append_assoc]
      · simp only [transferEvents, chunksEvents, if_neg hauto, ← h2, List.append_assoc,
          List.nil_append, List.append_nil]
      · intro h0; exact absurd h0 hret
  · next s3 out heq =>
    cases h
    obtain ⟨evs, rest, h1, h2, h3, _⟩ := key _ _ heq
    simp only [] at h1
    subst h1
    have hr : rest = [] := h3 rfl
    subst hr
    rw [List.append_nil] at h2
    by_cases hauto : s._cs_mode = CsMode.SPI_CS_AUTO
    · refine ⟨_, [], ?_, List.append_nil _, fun _ => rfl⟩
      simp only [if_pos hauto, after_cs_mode, withCs_cs_mode, if_true, after_cs_bits,
        withCs_cs_bits, withCs_after, withCs_withCs, after_after, setCsEvents_after,
        setCsEvents_withCs]
      simp only [← withCs_after, transferEvents, chunksEvents, if_pos hauto, ← h2,
        List.append_assoc]
    · refine ⟨_, [], ?_, List.append_nil _, fun _ => rfl⟩
      simp only [if_neg hauto, after_cs_mode, after_after, withCs_self, transferEvents,
        chunksEvents, ← h2, List.append_assoc, List.nil_append, List.append_nil]

theorem opcode_eq (K : Consts) (s : State) (hw hr : Bool) (hwr : s._wr_mode < 256)
    (hrd : s._rd_mode < 256) :
    opcode K s hw hr =
      (if hr then K.MPSSE_DO_READ ||| s._rd_mode else 0) |||
        (if hw then K.MPSSE_DO_WRITE ||| s._wr_mode else 0) := by
  have h1 : K.MPSSE_DO_READ ||| s._rd_mode < 2 ^ 8 := Nat.or_lt_two_pow K.do_read_lt hrd
  have h2 : K.MPSSE_DO_WRITE ||| s._wr_mode < 2 ^ 8 := Nat.or_lt_two_pow K.do_write_lt hwr
  unfold opcode
  apply Nat.mod_eq_of_lt
  apply Nat.or_lt_two_pow (n := 8)
  · split
    · exact h1
    · decide
  · split
    · exact h2
    · decide

/-- The calls of a transfer with the headers written out. -/
theorem transferEvents_eq (K : Consts) (s : State) (w : Option (List Nat)) (hr : Bool)
    (L : Nat) (hwr : s._wr_mode < 256) (hrd : s._rd_mode < 256) (hM : 1 ≤ max_xfer s hr) :
    transferEvents K s L w hr =
      (if s._cs_mode = CsMode.SPI_CS_AUTO then clearCsEvents s else []) ++ [Ev.flush] ++
        (List.range (chunkCount (max_xfer s hr) L)).flatMap (fun k =>
          [Ev.store [(if hr then K.MPSSE_DO_READ ||| s._rd_mode else 0) |||
                (if w.isSome then K.MPSSE_DO_WRITE ||| s._wr_mode else 0),
              (chunkLen (max_xfer s hr) L k - 1) % 256,
              (chunkLen (max_xfer s hr) L k - 1) / 256],
            Ev.store (match w with
              | some t => chunkPayload (max_xfer s hr) L t k
              | none => []),
            if hr then Ev.read (chunkLen (max_xfer s hr) L k) else Ev.flush]) ++
        (if s._cs_mode = CsMode.SPI_CS_AUTO then setCsEvents s else []) := by
  have hM2 : max_xfer s hr < 65536 := Nat.mod_lt _ (by decide)
  simp only [transferEvents, chunksEvents]
  congr 2
  apply List.flatMap_congr
  intro k hk
  have h1 : 1 ≤ chunkLen (max_xfer s hr) L k := chunkLen_pos hM (List.mem_range.1 hk)
  have h2 : chunkLen (max_xfer s hr) L k ≤ 65535 := by unfold chunkLen; omega
  simp only [chunkEvents, header_eq _ _ h1 (by omega), opcode_eq K s _ _ hwr hrd]

/-- C3: take a transfer with any combination of write and read buffer, byte-valued
edge flags and a chunk limit of at least 1.  Let `op` be
`(MPSSE_DO_READ | _rd_mode` if there is a read buffer, else 0`) |
(MPSSE_DO_WRITE | _wr_mode` if there is a write buffer, else 0`)`; it is 0 when
neither buffer is given.  Let `pattern` be the calls of the complete transfer,
in which every chunk starts with the store of exactly three bytes: `op`, the low
byte and the high byte of the chunk length minus 1, the same `op` in every
chunk.  Whatever the transport answers, if the transfer returns, the calls it
has made are an initial segment of `pattern`, and the whole of it when 0 is
returned; and over a transport whose calls succeed it does return 0. -/
theorem header_opcode_and_length (K : Consts) (T : Transport) (s : State)
    (w rx : Option (List Nat)) (L fuel : Nat) (hwr : s._wr_mode < 256) (hrd : s._rd_mode < 256)
    (hM : 1 ≤ max_xfer s rx.isSome) :
    ∃ op pattern,
      op = ((if rx.isSome then K.MPSSE_DO_READ ||| s._rd_mode else 0) |||
        (if w.isSome then K.MPSSE_DO_WRITE ||| s._wr_mode else 0)) ∧
      (w = none → rx = none → op = 0) ∧
      pattern =
        (if s._cs_mode = CsMode.SPI_CS_AUTO then clearCsEvents s else []) ++ [Ev.flush] ++
          (List.range (chunkCount (max_xfer s rx.isSome) L)).flatMap (fun k =>
            [Ev.store [op, (chunkLen (max_xfer s rx.isSome) L k - 1) % 256,
                (chunkLen (max_xfer s rx.isSome) L k - 1) / 256],
              Ev.store (match w with
                | some t => chunkPayload (max_xfer s rx.isSome) L t k
                | none => []),
              if rx.isSome then Ev.read (chunkLen (max_xfer s rx.isSome) L k) else Ev.flush]) ++
          (if s._cs_mode = CsMode.SPI_CS_AUTO then setCsEvents s else []) ∧
      (∀ k, k < chunkCount (max_xfer s rx.isSome) L →
        1 ≤ chunkLen (max_xfer s rx.isSome) L k ∧
        (chunkLen (max_xfer s rx.isSome) L k - 1) % 256 +
          256 * ((chunkLen (max_xfer s rx.isSome) L k - 1) / 256) =
            chunkLen (max_xfer s rx.isSome) L k - 1 ∧
        (chunkLen (max_xfer s rx.isSome) L k - 1) / 256 < 256) ∧
      (∀ res, ft2232_spi_wr_and_rd K T fuel s L w rx = some res →
        ∃ evs rest, res.1.trace = s.trace ++ evs ∧ evs ++ rest = pattern ∧
          (res.2.1 = 0 → rest = [])) ∧
      (T.Succeeds → chunkCount (max_xfer s rx.isSome) L ≤ fuel →
        (∀ r, rx = some r → r.length = L) →
        ∃ s1 out, ft2232_spi_wr_and_rd K T fuel s L w rx = some (s1, 0, out)) := by
  have hM2 : max_xfer s rx.isSome < 65536 := Nat.mod_lt _ (by decide)
  refine ⟨_, _, rfl, ?_, rfl, ?_, ?_, ?_⟩
  · intro hw hr; subst hw hr; simp
  · intro k hk
    have h1 : 1 ≤ chunkLen (max_xfer s rx.isSome) L k := chunkLen_pos hM hk
    have h2 : chunkLen (max_xfer s rx.isSome) L k ≤ 65535 := by unfold chunkLen; omega
    refine ⟨h1, ?_, ?_⟩ <;> omega
  · intro res hres
    rw [← transferEvents_eq K s w rx.isSome L hwr hrd hM]
    obtain ⟨evs, rest, h1, h2, h3⟩ := wr_and_rd_events K T s L fuel w rx res hM hres
    exact ⟨evs, rest, by rw [h1]; rfl, h2, h3⟩
  · intro hT hfuel hlen
    exact ⟨_, _, wr_and_rd_ok K T hT s L fuel w rx hM hfuel hlen⟩

/-- Witness for C3: in mode 1, a 6-byte transfer that writes and reads, in
chunks of 4 bytes, has the opcode 0x34 and returns 0 over `okTransport`. -/
theorem header_opcode_and_length_witness :
    ∃ op : Nat, op = 0x34 ∧
      ∃ s1 out, ft2232_spi_wr_and_rd libftdi okTransport 2
        (setMode libftdi okTransport (initState libftdi 4) 1) 6
        (some [1, 2, 3, 4, 5, 6]) (some (List.replicate 6 0)) = some (s1, 0, out) :=
  (header_opcode_and_length libftdi okTransport
    (setMode libftdi okTransport (initState libftdi 4) 1) (some [1, 2, 3, 4, 5, 6])
    (some (List.replicate 6 0)) 6 2 (by decide) (by decide) (by decide)).elim
    (fun op h => h.elim (fun _ hh =>
      ⟨op, hh.1.trans (by decide),
        hh.2.2.2.2.2 okTransport_succeeds (by decide) (by intro r hr; cases hr; decide)⟩))

/-! ## C4: the clock modes -/

/-- C4: for each of the modes 0 to 3 and a non-zero clock mask, `setMode` leaves
the triple (write-edge flag, read-edge flag, clock idle level) of the table
(mode 0: `MPSSE_WRITE_NEG`, 0, low; mode 1: 0, `MPSSE_READ_NEG`, low; mode 2: 0,
`MPSSE_READ_NEG`, clock mask; mode 3: `MPSSE_WRITE_NEG`, 0, clock mask) and
issues exactly one GPIO command, `gpio_clear` of the clock mask in modes 0 and
1 and `gpio_set` of it in modes 2 and 3; the two edge flags are never both
non-zero. -/
theorem setMode_table (K : Consts) (T : Transport) (s : State) (hclk : s._clk ≠ 0) :
    (((setMode K T s 0)._wr_mode, (setMode K T s 0)._rd_mode, (setMode K T s 0)._clk_idle) =
        (K.MPSSE_WRITE_NEG, 0, 0) ∧
      (setMode K T s 0).trace = s.trace ++ [Ev.gpio_clear s._clk]) ∧
    (((setMode K T s 1)._wr_mode, (setMode K T s 1)._rd_mode, (setMode K T s 1)._clk_idle) =
        (0, K.MPSSE_READ_NEG, 0) ∧
      (setMode K T s 1).trace = s.trace ++ [Ev.gpio_clear s._clk]) ∧
    (((setMode K T s 2)._wr_mode, (setMode K T s 2)._rd_mode, (setMode K T s 2)._clk_idle) =
        (0, K.MPSSE_READ_NEG, s._clk) ∧
      (setMode K T s 2).trace = s.trace ++ [Ev.gpio_set s._clk]) ∧
    (((setMode K T s 3)._wr_mode, (setMode K T s 3)._rd_mode, (setMode K T s 3)._clk_idle) =
        (K.MPSSE_WRITE_NEG, 0, s._clk) ∧
      (setMode K T s 3).trace = s.trace ++ [Ev.gpio_set s._clk]) ∧
    ∀ m, m ≤ 3 → ¬ ((setMode K T s m)._wr_mode ≠ 0 ∧ (setMode K T s m)._rd_mode ≠ 0) := by
  refine ⟨?_, ?_, ?_, ?_, ?_⟩
  · simp [setMode, gpio_clear]
  · simp [setMode, gpio_clear]
  · simp [setMode, gpio_set, hclk]
  · simp [setMode, gpio_set, hclk]
  · intro m hm
    have h4 : m = 0 ∨ m = 1 ∨ m = 2 ∨ m = 3 := by omega
    rcases h4 with rfl | rfl | rfl | rfl
    · simp [setMode, gpio_clear]
    · simp [setMode, gpio_clear]
    · simp [setMode, gpio_set, hclk]
    · simp [setMode, gpio_set, hclk]

/-- Witness for C4: the default state, whose clock mask is bit 0. -/
theorem setMode_table_witness :
    (initState libftdi 4096)._clk ≠ 0 ∧
    (setMode libftdi okTransport (initState libftdi 4096) 2).trace = [Ev.gpio_set 1] :=
  ⟨by decide,
    (setMode_table libftdi okTransport (initState libftdi 4096) (by decide)).2.2.1.2⟩

/-! ## C5: chip select around a transfer -/

theorem chunksEvents_no_gpio (K : Consts) (s : State) (L : Nat) (w : Option (List Nat))
    (hr : Bool) : ∀ e ∈ [Ev.flush] ++ chunksEvents K s L w hr, e.isGpio = false := by
  intro e he
  rcases List.mem_append.1 he with h | h
  · rw [List.mem_singleton.1 h]; rfl
  · unfold chunksEvents at h
    obtain ⟨k, _, hk⟩ := List.mem_flatMap.1 h
    simp only [chunkEvents, List.mem_cons, List.mem_singleton, List.not_mem_nil, or_false] at hk
    rcases hk with rfl | rfl | rfl
    · rfl
    · rfl
    · cases hr <;> rfl

/-- C5: take a transfer that returns 0, whatever the transport answered, with a
chunk limit of at least 1.  The calls between its first flush and its last
chunk (`mid`) contain no GPIO command.  In AUTO mode, with a CS mask that is
non-zero as a byte, the trace grows by the two `gpio_clear` of the CS mask (one
`clearCs`), then `mid`, then the two `gpio_set` of the CS mask (one `setCs`),
and CS is recorded as released.  In MANUAL mode the trace grows by `mid` alone,
so no GPIO command is issued, and the recorded CS state is unchanged. -/
theorem cs_bracketing (K : Consts) (T : Transport) (s s1 : State)
    (w rx out : Option (List Nat)) (L fuel : Nat) (hM : 1 ≤ max_xfer s rx.isSome)
    (hrun : ft2232_spi_wr_and_rd K T fuel s L w rx = some (s1, 0, out)) :
    ∃ mid, mid = [Ev.flush] ++ chunksEvents K s L w rx.isSome ∧
      (∀ e ∈ mid, e.isGpio = false) ∧
      (s._cs_mode = CsMode.SPI_CS_AUTO → s._cs_bits % 256 ≠ 0 →
        s1.trace = s.trace ++ ([Ev.gpio_clear s._cs_bits, Ev.gpio_clear s._cs_bits] ++ mid ++
          [Ev.gpio_set s._cs_bits, Ev.gpio_set s._cs_bits]) ∧
        s1._cs = s._cs_bits % 256 ∧ s1._cs_mode = CsMode.SPI_CS_AUTO) ∧
      (s._cs_mode = CsMode.SPI_CS_MANUAL →
        s1.trace = s.trace ++ mid ∧ s1._cs = s._cs ∧ s1._cs_mode = CsMode.SPI_CS_MANUAL) := by
  obtain ⟨evs, rest, h1, h2, h3⟩ := wr_and_rd_events K T s L fuel w rx _ hM hrun
  have hrest : rest = [] := h3 rfl
  subst hrest
  rw [List.append_nil] at h2
  simp only [if_true] at h1
  subst h2
  refine ⟨_, rfl, chunksEvents_no_gpio K s L w rx.isSome, ?_, ?_⟩
  · intro hauto hcs
    rw [if_pos hauto] at h1
    subst h1
    refine ⟨?_, rfl, hauto⟩
    rw [after_trace, withCs_trace]
    simp only [transferEvents, if_pos hauto, setCsEvents_of_ne s hcs, clearCsEvents,
      List.append_assoc]
  · intro hman
    have hna : s._cs_mode ≠ CsMode.SPI_CS_AUTO := by rw [hman]; decide
    rw [if_neg hna, withCs_self] at h1
    subst h1
    refine ⟨?_, rfl, hman⟩
    rw [after_trace]
    simp only [transferEvents, if_neg hna, List.nil_append, List.append_nil]

/-- Witness for C5: a 3-chunk read in AUTO mode over `okTransport`. -/
theorem cs_bracketing_witness :
    ∃ s1 out mid, ft2232_spi_wr_and_rd libftdi okTransport 3 (initState libftdi 4) 10 none
        (some (List.replicate 10 0)) = some (s1, 0, out) ∧
      mid = [Ev.flush] ++ chunksEvents libftdi (initState libftdi 4) 10 none true ∧
      s1.trace = [Ev.gpio_clear 8, Ev.gpio_clear 8] ++ mid ++ [Ev.gpio_set 8, Ev.gpio_set 8] :=
  (fun hrun =>
    (cs_bracketing libftdi okTransport (initState libftdi 4) _ none
      (some (List.replicate 10 0)) _ 10 3 (by decide) hrun).elim (fun mid h =>
        ⟨_, _, mid, hrun, h.1, (h.2.2.1 (by decide) (by decide)).1⟩))
  (wr_and_rd_ok libftdi okTransport okTransport_succeeds (initState libftdi 4) 10 3 none
    (some (List.replicate 10 0)) (by decide) (by decide)
    (by intro r hr; cases hr; decide))

/-! ## C6: the command-byte wrapper -/

theorem length_memcpy (dst src : List Nat) (off n : Nat) (h : off + n ≤ dst.length) :
    (memcpy dst off src n).length = dst.length := by
  unfold memcpy
  simp only [List.length_append, List.length_take, List.length_drop]
  omega

/-- The chunk loop leaves a read buffer of the length it was given, whatever
the transport answers. -/
theorem xfer_loop_length (T : Transport) (cmd0 M : Nat) (w : Option (List Nat)) :
    ∀ (fuel : Nat) (s : State) (len tx_ptr rx_ptr : Nat) (r : List Nat)
      (res : State × Option Int × Option (List Nat)),
      rx_ptr + len ≤ r.length →
      xfer_loop T cmd0 M w fuel s len tx_ptr rx_ptr (some r) = some res →
      ∃ r1, res.2.2 = some r1 ∧ r1.length = r.length := by
  intro fuel
  induction fuel with
  | zero =>
    intro s len tx_ptr rx_ptr r res _ h
    simp only [xfer_loop] at h
    split at h
    · cases h
    · cases h; exact ⟨r, rfl, rfl⟩
  | succ f ih =>
    intro s len tx_ptr rx_ptr r res hle h
    rw [xfer_loop] at h
    have hxle : (if len > M then M else len) % 65536 ≤ len := by
      split <;> omega
    simp only [mpsse_store_eq, mpsse_read_eq, after_after] at h
    generalize (if len > M then M else len) % 65536 = x at h hxle
    split_ifs at h with h1 h2 h3
    · cases h; exact ⟨r, rfl, rfl⟩
    · cases h; exact ⟨_, rfl, length_memcpy _ _ _ _ (by omega)⟩
    · obtain ⟨r1, h4, h5⟩ := ih _ _ _ _ _ _ (by rw [length_memcpy _ _ _ _ (by omega)]; omega) h
      exact ⟨r1, h4, h5.trans (length_memcpy _ _ _ _ (by omega))⟩
    · cases h; exact ⟨r, rfl, rfl⟩

theorem wr_and_rd_length (K : Consts) (T : Transport) (fuel : Nat) (s : State) (L : Nat)
    (w : Option (List Nat)) (r : List Nat) (res : State × Int × Option (List Nat))
    (hr : L ≤ r.length) (h : ft2232_spi_wr_and_rd K T fuel s L w (some r) = some res) :
    ∃ r1, res.2.2 = some r1 ∧ r1.length = r.length := by
  unfold ft2232_spi_wr_and_rd at h
  simp only [] at h
  split at h
  · cases h
  · next s3 ret rx heq =>
    cases h
    exact xfer_loop_length T _ _ w fuel _ L 0 0 r _ (by omega) heq
  · next s3 rx heq =>
    cases h
    exact xfer_loop_length T _ _ w fuel _ L 0 0 r _ (by omega) heq

/-- Without a read buffer the chunk loop returns none. -/
theorem xfer_loop_none (T : Transport) (cmd0 M : Nat) (w : Option (List Nat)) :
    ∀ (fuel : Nat) (s : State) (len tx_ptr rx_ptr : Nat)
      (res : State × Option Int × Option (List Nat)),
      xfer_loop T cmd0 M w fuel s len tx_ptr rx_ptr none = some res → res.2.2 = none := by
  intro fuel
  induction fuel with
  | zero =>
    intro s len tx_ptr rx_ptr res h
    simp only [xfer_loop] at h
    split at h
    · cases h
    · cases h; rfl
  | succ f ih =>
    intro s len tx_ptr rx_ptr res h
    rw [xfer_loop] at h
    simp only [mpsse_store_eq, mpsse_write_eq, after_after] at h
    generalize (if len > M then M else len) % 65536 = x at h
    split_ifs at h with h1 h2 h3
    · cases h; rfl
    · cases h; rfl
    · exact ih _ _ _ _ _ h
    · cases h; rfl

theorem wr_and_rd_none (K : Consts) (T : Transport) (fuel : Nat) (s : State) (L : Nat)
    (w : Option (List Nat)) (res : State × Int × Option (List Nat))
    (h : ft2232_spi_wr_and_rd K T fuel s L w none = some res) : res.2.2 = none := by
  unfold ft2232_spi_wr_and_rd at h
  simp only [] at h
  split at h
  · cases h
  · next s3 ret rx heq =>
    cases h
    exact xfer_loop_none T _ _ w fuel _ L 0 0 _ heq
  · next s3 rx heq =>
    cases h
    exact xfer_loop_none T _ _ w fuel _ L 0 0 _ heq

theorem length_uninit (junk : Nat → Nat) (n : Nat) : (uninit junk n).length = n := by
  simp [uninit]

theorem jtx_eq (u tx : List Nat) (cmd len : Nat) (hu : u.length = len + 1)
    (htx : tx.length = len) : memcpy (memcpy u 0 [cmd] 1) 1 tx len = [cmd] ++ tx := by
  have h1 : memcpy u 0 [cmd] 1 = cmd :: u.drop 1 := by simp [memcpy]
  have h2 : tx.take len = tx := List.take_of_length_le (by omega)
  rw [h1]
  unfold memcpy
  rw [h2, List.take_succ_cons, List.take_zero, htx, Nat.add_comm 1 len, List.drop_succ_cons,
    List.drop_drop, List.drop_of_length_le (by omega), List.append_nil]

theorem memcpy_all (r j : List Nat) (len : Nat) (hr : r.length = len) (hj : j.length = len) :
    memcpy r 0 j len = j := by
  unfold memcpy
  rw [List.take_zero, List.nil_append, List.take_of_length_le (by omega),
    List.drop_of_length_le (by omega), List.append_nil]

/-- C6: for a non-null `tx` of `len` bytes, with `len + 1` representable on 32
bits and `rx` null or of `len` bytes, `spi_put(cmd, tx, rx, len)` does what the
specification's `transfer([cmd] + tx, rx_with_leading_byte, len + 1)` followed
by dropping the first response byte does: it leaves the same state, hence the
same trace of transport calls, and `rx` receives the response without its
first byte.  This holds whatever the transport answers; the wrapper itself
returns 0. -/
theorem spi_put_cmd_refines (K : Consts) (T : Transport) (fuel : Nat)
    (jtx_junk jrx_junk : Nat → Nat) (s : State) (cmd : Nat) (tx : List Nat)
    (rx : Option (List Nat)) (len : Nat) (htx : tx.length = len) (hlen : len + 1 < 2 ^ 32)
    (hrx : ∀ r, rx = some r → r.length = len) :
    spi_put_cmd K T fuel jtx_junk jrx_junk s cmd (some tx) rx len =
      (transferWithCommandByte_spec K T fuel s cmd tx
        (rx.map (fun _ => uninit jrx_junk (len + 1))) len).map (fun r => (r.1, 0, r.2)) := by
  have hmod : (len + 1) % 2 ^ 32 = len + 1 := Nat.mod_eq_of_lt hlen
  unfold spi_put_cmd transferWithCommandByte_spec
  simp only [hmod, jtx_eq _ tx cmd len (length_uninit _ _) htx]
  cases rx with
  | none =>
    simp only [Option.map_none']
    cases h : ft2232_spi_wr_and_rd K T fuel s (len + 1) (some ([cmd] ++ tx)) none with
    | none => rfl
    | some res =>
      obtain ⟨s1, ret, out⟩ := res
      have hout : out = none := wr_and_rd_none K T fuel s (len + 1) _ _ h
      subst hout
      rfl
  | some r =>
    simp only [Option.map_some']
    cases h : ft2232_spi_wr_and_rd K T fuel s (len + 1) (some ([cmd] ++ tx))
        (some (uninit jrx_junk (len + 1))) with
    | none => rfl
    | some res =>
      obtain ⟨s1, ret, out⟩ := res
      obtain ⟨j, hj1, hj2⟩ := wr_and_rd_length K T fuel s (len + 1) _ _ _
        (by rw [length_uninit]) h
      simp only [] at hj1
      subst hj1
      rw [length_uninit] at hj2
      simp only [Option.map_some']
      rw [memcpy_all r (j.drop 1) len (hrx r rfl) (by rw [List.length_drop]; omega)]

/-- Witness for C6: a command byte and five payload bytes over `okTransport`
with a buffer of 4 bytes. -/
theorem spi_put_cmd_refines_witness :
    spi_put_cmd libftdi okTransport 2 (fun _ => 0xAA) (fun _ => 0xBB) (initState libftdi 4)
        0x9f (some [1, 2, 3, 4, 5]) (some [0, 0, 0, 0, 0]) 5 =
      (transferWithCommandByte_spec libftdi okTransport 2 (initState libftdi 4) 0x9f
        [1, 2, 3, 4, 5] ((some [0, 0, 0, 0, 0]).map (fun _ => uninit (fun _ => 0xBB) (5 + 1)))
        5).map (fun r => (r.1, 0, r.2)) :=
  spi_put_cmd_refines libftdi okTransport 2 (fun _ => 0xAA) (fun _ => 0xBB)
    (initState libftdi 4) 0x9f [1, 2, 3, 4, 5] (some [0, 0, 0, 0, 0]) 5 rfl (by decide)
    (by intro r hr; cases hr; rfl)

/-! ## The status poller -/

theorem read_one (T : Transport) (hT : T.Succeeds) (i : Nat) : (T.read i 1).2 = [sample T i] := by
  have h := hT.2.2.2 i 1
  unfold sample
  cases hl : (T.read i 1).2 with
  | nil => rw [hl] at h; cases h
  | cons b t =>
    rw [hl] at h
    cases t with
    | nil => rfl
    | cons c u => simp at h

theorem chunkCount_one {M : Nat} (hM : 1 ≤ M) : chunkCount M 1 = 1 := by
  unfold chunkCount
  rw [Nat.add_sub_cancel_left]
  exact Nat.div_self (by omega)

theorem chunkLen_one {M : Nat} (hM : 1 ≤ M) : chunkLen M 1 0 = 1 := by
  unfold chunkLen; omega

theorem range_one_eq : List.range 1 = [0] := rfl

theorem header_one (cmd0 : Nat) : header cmd0 1 = [cmd0, 0, 0] := by
  rw [header_eq cmd0 1 (by decide) (by decide)]

/-- A one-byte write in MANUAL mode over a succeeding transport. -/
theorem one_byte_write (K : Consts) (T : Transport) (hT : T.Succeeds) (s : State)
    (cmd fuel : Nat) (hfuel : 1 ≤ fuel) (hman : s._cs_mode = CsMode.SPI_CS_MANUAL) :
    ft2232_spi_wr_and_rd K T fuel s 1 (some [cmd]) none =
      some (s.after (writeCmdEvents K s cmd), 0, none) := by
  have hM : 1 ≤ max_xfer s false := by rw [max_xfer_write]; decide
  have hna : ¬ s._cs_mode = CsMode.SPI_CS_AUTO := by rw [hman]; decide
  rw [wr_and_rd_ok K T hT s 1 fuel (some [cmd]) none hM
    (by rw [Option.isSome_none, chunkCount_one hM]; exact hfuel) (by intro r hr; cases hr)]
  simp only [if_neg hna, transferEvents, chunksEvents, Option.isSome_none, chunkCount_one hM,
    range_one_eq, List.flatMap_singleton, chunkEvents, chunkLen_one hM, header_one,
    chunkPayload, Option.map_none', writeCmdEvents, Option.isSome_some]
  rfl

/-- A one-byte read in MANUAL mode over a succeeding transport. -/
theorem one_byte_read (K : Consts) (T : Transport) (hT : T.Succeeds) (s : State)
    (rx fuel : Nat) (hfuel : 1 ≤ fuel) (hman : s._cs_mode = CsMode.SPI_CS_MANUAL)
    (hM : 1 ≤ max_xfer s true) :
    ft2232_spi_wr_and_rd K T fuel s 1 none (some [rx]) =
      some (s.after (readCycleEvents K s), 0, some [sample T s.nRead]) := by
  have hna : ¬ s._cs_mode = CsMode.SPI_CS_AUTO := by rw [hman]; decide
  rw [wr_and_rd_ok K T hT s 1 fuel none (some [rx]) hM
    (by rw [Option.isSome_some, chunkCount_one hM]; exact hfuel)
    (by intro r hr; cases hr; rfl)]
  simp only [if_neg hna, transferEvents, chunksEvents, Option.isSome_some, chunkCount_one hM,
    range_one_eq, List.flatMap_singleton, chunkEvents, chunkLen_one hM, header_one,
    Option.map_some', responses, readCycleEvents, Option.isSome_none, Nat.add_zero,
    read_one T hT]
  rfl

theorem after_max_xfer (s : State) (evs : List Ev) (b : Bool) :
    max_xfer (s.after evs) b = max_xfer s b := rfl

theorem after_readCycleEvents (K : Consts) (s : State) (evs : List Ev) :
    readCycleEvents K (s.after evs) = readCycleEvents K s := rfl

/-- The polling loop, from the moment `c` cycles are done until it is left at
the end of cycle `k`: no earlier cycle reaches the timeout count or samples a
matching byte, and cycle `k` does one or the other. -/
theorem wait_loop_run (K : Consts) (T : Transport) (hT : T.Succeeds)
    (fuel mask cond timeout : Nat) (hfuel : 1 ≤ fuel) (r0 k : Nat) :
    ∀ (d c n : Nat) (s : State) (rx : Nat), c + (d + 1) = k → d + 1 ≤ n → s.nRead = r0 + c →
      s._cs_mode = CsMode.SPI_CS_MANUAL → 1 ≤ max_xfer s true →
      (∀ j, c ≤ j → j + 1 < k →
        (j + 1) % 2 ^ 32 ≠ timeout ∧ sample T (r0 + j) &&& mask ≠ cond) →
      (k % 2 ^ 32 = timeout ∨ sample T (r0 + (k - 1)) &&& mask = cond) →
      wait_loop K T fuel mask cond timeout n s (c % 2 ^ 32) rx =
        some (s.after ((List.range' c (d + 1)).flatMap (fun _ => readCycleEvents K s)),
          k % 2 ^ 32, sample T (r0 + (k - 1))) := by
  intro d
  induction d with
  | zero =>
    intro c n s rx hk hn hr hman hM _ hlast
    obtain ⟨n1, rfl⟩ : ∃ n1, n = n1 + 1 := ⟨n - 1, by omega⟩
    have hk1 : k - 1 = c := by omega
    have hc1 : (c % 2 ^ 32 + 1) % 2 ^ 32 = k % 2 ^ 32 := by omega
    rw [wait_loop, one_byte_read K T hT s rx fuel hfuel hman hM]
    simp only [hc1, hr, hk1] at hlast ⊢
    by_cases ht : k % 2 ^ 32 = timeout
    · rw [if_pos ht]
      simp only [List.range'_succ, List.range'_zero, List.flatMap_cons, List.flatMap_nil,
        List.append_nil]
    · rw [if_neg ht, if_neg (not_not.mpr (hlast.resolve_left ht))]
      simp only [List.range'_succ, List.range'_zero, List.flatMap_cons, List.flatMap_nil,
        List.append_nil]
  | succ d ih =>
    intro c n s rx hk hn hr hman hM hall hlast
    obtain ⟨n1, rfl⟩ : ∃ n1, n = n1 + 1 := ⟨n - 1, by omega⟩
    have hc1 : (c % 2 ^ 32 + 1) % 2 ^ 32 = (c + 1) % 2 ^ 32 := by omega
    obtain ⟨h1, h2⟩ := hall c (le_refl c) (by omega)
    rw [wait_loop, one_byte_read K T hT s rx fuel hfuel hman hM]
    simp only [hc1, hr, if_neg h1, h2, ne_eq, not_false_eq_true, if_true]
    rw [ih (c + 1) n1 (s.after (readCycleEvents K s)) _ (by omega) (by omega)
      (by rw [after_nRead, hr]; simp [readCycleEvents]; omega) hman hM
      (fun j hj hjk => hall j (by omega) hjk) hlast]
    rw [after_after, List.range'_succ c (d + 1), List.flatMap_cons]
    rfl

/-- The whole of `spi_wait` when the polling loop is left at the end of cycle
`k`. -/
theorem spi_wait_run (K : Consts) (T : Transport) (hT : T.Succeeds) (s : State)
    (cmd mask cond timeout rx0 fuel k : Nat) (hk : 1 ≤ k) (hfuel : k ≤ fuel)
    (hM : 1 ≤ max_xfer s true)
    (hall : ∀ j, j + 1 < k →
      (j + 1) % 2 ^ 32 ≠ timeout ∧ sample T (s.nRead + j) &&& mask ≠ cond)
    (hlast : k % 2 ^ 32 = timeout ∨ sample T (s.nRead + (k - 1)) &&& mask = cond) :
    spi_wait K T fuel s cmd mask cond timeout rx0 =
      some (setCSmode ((s.withCs (s._cs_bits % 256)).after (waitEvents K s cmd k))
          CsMode.SPI_CS_AUTO,
        if k % 2 ^ 32 = timeout then -(K.ETIME : Int) else 0,
        sample T (s.nRead + (k - 1))) := by
  have hfuel1 : 1 ≤ fuel := by omega
  have hw := wait_loop_run K T hT fuel mask cond timeout hfuel1 s.nRead k (k - 1) 0 fuel
    ((((setCSmode s CsMode.SPI_CS_MANUAL).withCs 0).after
      (clearCsEvents s)).after (writeCmdEvents K s cmd)) rx0
    (by omega) (by omega) (by rw [after_nRead, after_nRead]; simp [clearCsEvents, writeCmdEvents,
      setCSmode, State.withCs]) rfl hM (fun j _ hj => hall j hj) hlast
  rw [Nat.zero_mod] at hw
  unfold spi_wait
  simp only [clearCs_eq]
  rw [one_byte_write K T hT _ cmd fuel hfuel1 rfl]
  simp only []
  erw [hw]
  simp only [setCs_eq]
  have hk1 : k - 1 + 1 = k := by omega
  have hfin : ∀ s4 : State,
      s4 = (((setCSmode s CsMode.SPI_CS_MANUAL).withCs 0).after (clearCsEvents s)).after
        (writeCmdEvents K s cmd) →
      setCSmode (((s4.after ((List.range' 0 (k - 1 + 1)).flatMap
          fun _ => readCycleEvents K s)).withCs (s._cs_bits % 256)).after (setCsEvents s))
        CsMode.SPI_CS_AUTO =
      setCSmode ((s.withCs (s._cs_bits % 256)).after (waitEvents K s cmd k))
        CsMode.SPI_CS_AUTO := by
    intro s4 hs4
    subst hs4
    rw [hk1, ← List.range_eq_range']
    cases s
    simp [setCSmode, State.withCs, State.after, waitEvents, List.countP_append, Nat.add_assoc]
  have hfin1 := hfin _ rfl
  split_ifs with h
  · exact congrArg (fun x => some (x, -(K.ETIME : Int), sample T (s.nRead + (k - 1)))) hfin1
  · exact congrArg (fun x => some (x, (0 : Int), sample T (s.nRead + (k - 1)))) hfin1

/-! ## C7: failures inside a transfer -/

/-- C7, the code at the failing input: the store of the header of the only chunk
fails with -1, every other call succeeds; the transfer goes on with the
payload, the flush and the CS deassertion and returns 0. -/
theorem header_store_failure_ignored :
    (firstStoreFails.store 0 [0x11, 0, 0] = -1) ∧
    (ft2232_spi_wr_and_rd libftdi firstStoreFails 1 (initState libftdi 4096) 1
        (some [0x9f]) none).map (fun r => (r.1.trace, r.2.1)) =
      some ([Ev.gpio_clear 8, Ev.gpio_clear 8, Ev.flush, Ev.store [0x11, 0, 0],
        Ev.store [0x9f], Ev.flush, Ev.gpio_set 8, Ev.gpio_set 8], 0) := by
  decide

/-! ## C8: failures in the wrappers -/

/-- C8, the code at the failing input: the payload store fails with -1, the
transfer underneath returns -1, the pass-through `spi_put` returns that -1, and
the command-byte `spi_put` returns 0. -/
theorem spi_put_cmd_drops_error :
    (ft2232_spi_wr_and_rd libftdi secondStoreFails 1 (initState libftdi 4096) 2
        (some [0x9f, 0]) none).map (fun r => r.2.1) = some (-1) ∧
    (spi_put libftdi secondStoreFails 1 (initState libftdi 4096)
        (some [0x9f, 0]) none 2).map (fun r => r.2.1) = some (-1) ∧
    (spi_put_cmd libftdi secondStoreFails 1 (fun _ => 0) (fun _ => 0) (initState libftdi 4096)
        0x9f (some [0]) none 1).map (fun r => r.2.1) = some 0 := by
  decide

/-! ## C9: polling that times out -/

theorem setCSmode_after_trace (s : State) (evs : List Ev) (v : Nat) (m : CsMode) :
    (setCSmode ((s.withCs v).after evs) m).trace = s.trace ++ evs := rfl

/-- C9: with `1 ≤ N < 2 ^ 32`, a transport whose calls succeed and a buffer size
that gives a chunk limit of at least 1, if none of the first `N` bytes the device
answers satisfies `(r & mask) == cond`, then `spi_wait(cmd, mask, cond, N)`
returns `-ETIME` with `rx` holding the `N`-th answer, and the calls it made are:
the CS assertion, the one-byte write of `cmd`, exactly `N` one-byte read-only
transfers, and the CS deassertion. -/
theorem spi_wait_timeout (K : Consts) (T : Transport) (hT : T.Succeeds) (s : State)
    (cmd mask cond N rx0 fuel : Nat) (hN1 : 1 ≤ N) (hN2 : N < 2 ^ 32) (hfuel : N ≤ fuel)
    (hM : 1 ≤ max_xfer s true)
    (hnever : ∀ j, j < N → sample T (s.nRead + j) &&& mask ≠ cond) :
    ∃ s1, spi_wait K T fuel s cmd mask cond N rx0 =
        some (s1, -(K.ETIME : Int), sample T (s.nRead + (N - 1))) ∧
      s1.trace = s.trace ++
        ([Ev.gpio_clear s._cs_bits, Ev.gpio_clear s._cs_bits] ++
          [Ev.flush, Ev.store [opcode K s true false, 0, 0], Ev.store [cmd], Ev.flush] ++
          (List.range N).flatMap (fun _ =>
            [Ev.flush, Ev.store [opcode K s false true, 0, 0], Ev.store [], Ev.read 1]) ++
          setCsEvents s) := by
  have hmod : N % 2 ^ 32 = N := Nat.mod_eq_of_lt hN2
  have hrun := spi_wait_run K T hT s cmd mask cond N rx0 fuel N hN1 hfuel hM
    (fun j hj => ⟨by omega, hnever j (by omega)⟩) (Or.inl hmod)
  rw [if_pos hmod] at hrun
  exact ⟨_, hrun, rfl⟩

/-- Witness for C9: `okTransport` answers 0, 16, 32; none equals 1. -/
theorem spi_wait_timeout_witness :
    ∃ s1, spi_wait libftdi okTransport 3 (initState libftdi 4) 5 0xff 1 3 0 =
      some (s1, -(libftdi.ETIME : Int), sample okTransport (0 + (3 - 1))) :=
  (spi_wait_timeout libftdi okTransport okTransport_succeeds (initState libftdi 4) 5 0xff 1 3 0
    3 (by decide) (by decide) (by decide) (by decide) (by decide)).imp (fun _ h => h.1)

/-! ## C10: polling that finds a match -/

/-- C10, counterexample: the first answer that satisfies `(r & mask) == cond` is
the third one and `maxIterations` is 3, yet `spi_wait` returns `-ETIME`. -/
theorem spi_wait_match_on_last_cycle :
    (sample okTransport 0 &&& 0xff ≠ 32 ∧ sample okTransport 1 &&& 0xff ≠ 32 ∧
      sample okTransport 2 &&& 0xff = 32) ∧
    (spi_wait libftdi okTransport 3 (initState libftdi 4) 5 0xff 32 3 0).map (fun r => r.2.1) =
      some (-62) := by
  decide

/-- C10 as amended: when the first answer that satisfies `(r & mask) == cond` is
the `k`-th one, with `1 ≤ k ≤ maxIterations < 2 ^ 32`, over a transport whose
calls succeed, `spi_wait` returns after exactly `k` read cycles, never reading
past that cycle, with `rx` holding that answer; and it returns 0 when
`k < maxIterations`. -/
theorem spi_wait_first_match (K : Consts) (T : Transport) (hT : T.Succeeds) (s : State)
    (cmd mask cond N rx0 fuel k : Nat) (hk1 : 1 ≤ k) (hkN : k ≤ N) (hN2 : N < 2 ^ 32)
    (hfuel : k ≤ fuel) (hM : 1 ≤ max_xfer s true)
    (hfirst : ∀ j, j + 1 < k → sample T (s.nRead + j) &&& mask ≠ cond)
    (hmatch : sample T (s.nRead + (k - 1)) &&& mask = cond) :
    ∃ s1 ret, spi_wait K T fuel s cmd mask cond N rx0 =
        some (s1, ret, sample T (s.nRead + (k - 1))) ∧
      (k < N → ret = 0) ∧
      s1.trace = s.trace ++
        ([Ev.gpio_clear s._cs_bits, Ev.gpio_clear s._cs_bits] ++
          [Ev.flush, Ev.store [opcode K s true false, 0, 0], Ev.store [cmd], Ev.flush] ++
          (List.range k).flatMap (fun _ =>
            [Ev.flush, Ev.store [opcode K s false true, 0, 0], Ev.store [], Ev.read 1]) ++
          setCsEvents s) := by
  have hrun := spi_wait_run K T hT s cmd mask cond N rx0 fuel k hk1 hfuel hM
    (fun j hj => ⟨by omega, hfirst j hj⟩) (Or.inr hmatch)
  have hmod : k % 2 ^ 32 = k := Nat.mod_eq_of_lt (by omega)
  rw [hmod] at hrun
  exact ⟨_, _, hrun, fun hlt => if_neg (by omega), rfl⟩

/-- Witness for C10 as amended: a match on the third of ten cycles. -/
theorem spi_wait_first_match_witness :
    ∃ s1, spi_wait libftdi okTransport 3 (initState libftdi 4) 5 0xff 32 10 0 =
      some (s1, 0, sample okTransport (0 + (3 - 1))) :=
  (spi_wait_first_match libftdi okTransport okTransport_succeeds (initState libftdi 4) 5 0xff 32
    10 0 3 3 (by decide) (by decide) (by decide) (by decide) (by decide)
    (by intro j hj; have h2 : j = 0 ∨ j = 1 := by omega
        rcases h2 with rfl | rfl <;> decide)
    (by decide)).elim (fun s1 h => h.elim (fun ret hh =>
      ⟨s1, by rw [hh.1, hh.2.1 (by decide)]; rfl⟩))

/-! ## C12: the chip-select commands -/

/-- C12, counterexample: the first `gpio_clear` of `clearCs` succeeds and the
second fails, and `clearCs` reports success. -/
theorem clearCs_success_with_one_failure :
    firstGpioOnly.gpio 0 = true ∧ firstGpioOnly.gpio 1 = false ∧
    (clearCs firstGpioOnly (initState libftdi 4096)).2 = true := by
  decide

/-- C12 as amended: `clearCs` records the CS state as 0 and issues exactly two
consecutive `gpio_clear` on the CS mask; `setCs`, for a CS mask that is a
non-zero 8-bit value, records the CS state as the CS mask and issues exactly
two consecutive `gpio_set` on it; each reports success exactly when at least
one of its two GPIO commands succeeded. -/
theorem cs_commands (T : Transport) (s : State) :
    ((clearCs T s).1._cs = 0 ∧
      (clearCs T s).1.trace = s.trace ++ [Ev.gpio_clear s._cs_bits, Ev.gpio_clear s._cs_bits] ∧
      (clearCs T s).2 = (T.gpio s.nGpio || T.gpio (s.nGpio + 1))) ∧
    (s._cs_bits ≠ 0 → s._cs_bits < 256 →
      (setCs T s).1._cs = s._cs_bits ∧
      (setCs T s).1.trace = s.trace ++ [Ev.gpio_set s._cs_bits, Ev.gpio_set s._cs_bits] ∧
      (setCs T s).2 = (T.gpio s.nGpio || T.gpio (s.nGpio + 1))) := by
  refine ⟨⟨?_, ?_, ?_⟩, ?_⟩
  · rw [clearCs_eq]; rfl
  · rw [clearCs_eq]; rfl
  · rw [clearCs_eq]
  · intro h0 h256
    have hmod : s._cs_bits % 256 = s._cs_bits := Nat.mod_eq_of_lt h256
    have hne : s._cs_bits % 256 ≠ 0 := by rw [hmod]; exact h0
    rw [setCs_eq, setCsEvents_of_ne s hne]
    exact ⟨hmod, rfl, rfl⟩

/-- Witness for C12 as amended: the default CS mask, bit 3, over `okTransport`. -/
theorem cs_commands_witness :
    (setCs okTransport (initState libftdi 4096)).1._cs = 8 ∧
    (setCs okTransport (initState libftdi 4096)).1.trace = [Ev.gpio_set 8, Ev.gpio_set 8] ∧
    (setCs okTransport (initState libftdi 4096)).2 = true :=
  ⟨((cs_commands okTransport (initState libftdi 4096)).2 (by decide) (by decide)).1,
    ((cs_commands okTransport (initState libftdi 4096)).2 (by decide) (by decide)).2.1,
    ((cs_commands okTransport (initState libftdi 4096)).2 (by decide) (by decide)).2.2.trans
      (by decide)⟩

/-! ## C17: mode values outside 0..3 -/

/-- C17: for a mode value of 4 or more, `setMode` leaves the write-edge flag, the
read-edge flag and the clock idle level, and every other member, as they were;
all it does is issue one GPIO command on the clock mask, `gpio_set` if the
idle level it found is non-zero and `gpio_clear` otherwise. -/
theorem setMode_other_modes (K : Consts) (T : Transport) (s : State) (m : Nat) (hm : 4 ≤ m) :
    (setMode K T s m)._wr_mode = s._wr_mode ∧ (setMode K T s m)._rd_mode = s._rd_mode ∧
    (setMode K T s m)._clk_idle = s._clk_idle ∧
    setMode K T s m =
      s.after [if s._clk_idle ≠ 0 then Ev.gpio_set s._clk else Ev.gpio_clear s._clk] := by
  obtain ⟨n, rfl⟩ : ∃ n, m = n + 4 := ⟨m - 4, by omega⟩
  have h : setMode K T s (n + 4) =
      s.after [if s._clk_idle ≠ 0 then Ev.gpio_set s._clk else Ev.gpio_clear s._clk] := by
    simp only [setMode, gpio_set_eq, gpio_clear_eq]
    split <;> rfl
  rw [h]
  exact ⟨rfl, rfl, rfl, rfl⟩

/-- Witness for C17: mode 7 after mode 2 drives the clock high again. -/
theorem setMode_other_modes_witness :
    setMode libftdi okTransport (setMode libftdi okTransport (initState libftdi 4096) 2) 7 =
      (setMode libftdi okTransport (initState libftdi 4096) 2).after [Ev.gpio_set 1] :=
  (setMode_other_modes libftdi okTransport
    (setMode libftdi okTransport (initState libftdi 4096) 2) 7 (by decide)).2.2.2

/-! ## C14: a transfer with neither buffer -/

/-- C14, counterexample: a transfer of one byte with both buffers null returns
0 and has submitted the command header `0, 0, 0`, an empty payload and a
flush: it is neither refused nor a no-op. -/
theorem null_transfer_submits_header :
    (ft2232_spi_wr_and_rd libftdi okTransport 1 (initState libftdi 4096) 1 none none).map
        (fun r => (r.1.trace, r.2.1)) =
      some ([Ev.gpio_clear 8, Ev.gpio_clear 8, Ev.flush, Ev.store [0, 0, 0], Ev.store [],
        Ev.flush, Ev.gpio_set 8, Ev.gpio_set 8], 0) := by
  decide

/-- C14 as amended: a transfer of `L ≥ 1` bytes with both buffers null is a
pure-clocking transfer.  Over a transport whose calls succeed it returns 0 and
submits, between the CS commands of AUTO mode and after the initial flush,
`⌈L / 4096⌉` chunks, each made of a 3-byte header with opcode 0 and the chunk
length minus 1, an empty payload and a flush; it submits no data byte and reads
nothing. -/
theorem null_transfer_clocks (K : Consts) (T : Transport) (hT : T.Succeeds) (s : State)
    (L fuel : Nat) (hL : 1 ≤ L) (hfuel : (L + 4095) / 4096 ≤ fuel) :
    ∃ s1, ft2232_spi_wr_and_rd K T fuel s L none none = some (s1, 0, none) ∧
      s1.trace = s.trace ++
        ((if s._cs_mode = CsMode.SPI_CS_AUTO then clearCsEvents s else []) ++ [Ev.flush] ++
          (List.range ((L + 4095) / 4096)).flatMap (fun k =>
            [Ev.store [0, (min (L - k * 4096) 4096 - 1) % 256,
                (min (L - k * 4096) 4096 - 1) / 256],
              Ev.store [], Ev.flush]) ++
          (if s._cs_mode = CsMode.SPI_CS_AUTO then setCsEvents s else [])) ∧
      1 ≤ (L + 4095) / 4096 := by
  have hrun := wr_and_rd_ok K T hT s L fuel none none
    (by rw [Option.isSome_none, max_xfer_write]; decide)
    (by rw [Option.isSome_none, max_xfer_write, chunkCount_4096]; exact hfuel)
    (by intro r hr; cases hr)
  refine ⟨_, hrun, ?_, by omega⟩
  rw [after_trace, ite_withCs_trace]
  congr 1
  simp only [transferEvents, chunksEvents, Option.isSome_none, max_xfer_write, chunkCount_4096]
  congr 2
  apply List.flatMap_congr
  intro k hk
  have hk1 : k < (L + 4095) / 4096 := List.mem_range.1 hk
  have hc : 1 ≤ chunkLen 4096 L k ∧ chunkLen 4096 L k ≤ 4096 := by
    unfold chunkLen; omega
  have hop : opcode K s false false = 0 := by simp [opcode]
  simp only [chunkEvents, header_eq _ _ hc.1 (by omega), hop]
  rfl

/-- Witness for C14 as amended: 5000 clocked bytes over `okTransport`. -/
theorem null_transfer_clocks_witness :
    ∃ s1, ft2232_spi_wr_and_rd libftdi okTransport 2 (initState libftdi 4096) 5000 none none =
      some (s1, 0, none) :=
  (null_transfer_clocks libftdi okTransport okTransport_succeeds (initState libftdi 4096) 5000 2
    (by decide) (by decide)).imp (fun _ h => h.1)

/-! ## C15 and C16: the constructor -/

/-- C15: the constructor resolves the CS mask to `cs_pin` if that is non-zero and
to bit 3 otherwise, the clock mask to bit 0 when `sck_pin` is zero, the hold
and write-protect masks to `holdn_pin` and `wpn_pin`; it calls `init`, then
`gpio_set_output` and `gpio_set` on exactly CS | hold | write-protect, then
drives the clock low with the `gpio_clear` of `setMode(0)`; and it leaves the
object in mode 0 with CS mode AUTO. -/
theorem constructor_masks (K : Consts) (T : Transport) (raw : State) (c : spi_pins_conf_t) :
    (FtdiSpi_pins K T raw c)._cs_bits = (if c.cs_pin ≠ 0 then c.cs_pin else 0x08) ∧
    (c.sck_pin = 0 → (FtdiSpi_pins K T raw c)._clk = 0x01) ∧
    (FtdiSpi_pins K T raw c)._holdn = c.holdn_pin ∧
    (FtdiSpi_pins K T raw c)._wpn = c.wpn_pin ∧
    (FtdiSpi_pins K T raw c).trace = raw.trace ++
      [Ev.init 1 (FtdiSpi_pins K T raw c)._cs_bits K.BITMODE_MPSSE,
        Ev.gpio_set_output ((FtdiSpi_pins K T raw c)._cs_bits ||| c.holdn_pin ||| c.wpn_pin),
        Ev.gpio_set ((FtdiSpi_pins K T raw c)._cs_bits ||| c.holdn_pin ||| c.wpn_pin),
        Ev.gpio_clear (FtdiSpi_pins K T raw c)._clk] ∧
    ((FtdiSpi_pins K T raw c)._wr_mode = K.MPSSE_WRITE_NEG ∧
      (FtdiSpi_pins K T raw c)._rd_mode = 0 ∧ (FtdiSpi_pins K T raw c)._clk_idle = 0) ∧
    (FtdiSpi_pins K T raw c)._cs_mode = CsMode.SPI_CS_AUTO := by
  obtain ⟨cs, sck, holdn, wpn⟩ := c
  by_cases h1 : cs = 0 <;> by_cases h2 : sck = 0 <;> by_cases h3 : holdn = 0 <;>
    by_cases h4 : wpn = 0 <;>
    simp [FtdiSpi_pins, init, gpio_set_output, gpio_set, gpio_clear, setMode, setCSmode,
      setEndianness, h1, h2, h3, h4]

/-- Witness for C15: CS on bit 4, hold on bit 5, the other pins not set. -/
theorem constructor_masks_witness :
    (FtdiSpi_pins libftdi okTransport (initState libftdi 4096)
        { cs_pin := 0x10, sck_pin := 0, holdn_pin := 0x20, wpn_pin := 0 })._clk = 0x01 ∧
    (FtdiSpi_pins libftdi okTransport (initState libftdi 4096)
        { cs_pin := 0x10, sck_pin := 0, holdn_pin := 0x20, wpn_pin := 0 })._cs_mode =
      CsMode.SPI_CS_AUTO :=
  ⟨(constructor_masks libftdi okTransport (initState libftdi 4096)
      { cs_pin := 0x10, sck_pin := 0, holdn_pin := 0x20, wpn_pin := 0 }).2.1 rfl,
    (constructor_masks libftdi okTransport (initState libftdi 4096)
      { cs_pin := 0x10, sck_pin := 0, holdn_pin := 0x20, wpn_pin := 0 }).2.2.2.2.2.2⟩

/-- C16, counterexample to the claim as worded: with `sck_pin = 0x02` the
constructor leaves the clock mask at 0x02, which is not bit 0, and its
`setMode(0)` drives that mask low. -/
theorem constructor_takes_sck_pin :
    (FtdiSpi_pins libftdi okTransport (initState libftdi 4096)
        { cs_pin := 0, sck_pin := 0x02, holdn_pin := 0, wpn_pin := 0 })._clk = 0x02 ∧
    (FtdiSpi_pins libftdi okTransport (initState libftdi 4096)
        { cs_pin := 0, sck_pin := 0x02, holdn_pin := 0, wpn_pin := 0 })._clk ≠ 0x01 ∧
    (FtdiSpi_pins libftdi okTransport (initState libftdi 4096)
        { cs_pin := 0, sck_pin := 0x02, holdn_pin := 0, wpn_pin := 0 }).trace =
      [Ev.init 1 0x08 0x02, Ev.gpio_set_output 0x08, Ev.gpio_set 0x08, Ev.gpio_clear 0x02] := by
  decide

/-- C16 as amended: for every pin configuration the constructor leaves the clock
mask at `sck_pin` when that is non-zero and at bit 0 (0x01) otherwise; the mask
is never part of the direction update and the initial `gpio_set`, which are on
CS | hold | write-protect; and it is this mask that `setMode` drives to the idle
level: the constructor ends with the `gpio_clear` of it from `setMode(0)`, and
any later `setMode` on the object keeps the mask and issues one command on it,
`gpio_set` for the modes 2 and 3 and `gpio_clear` for every other value. -/
theorem constructor_clock_mask (K : Consts) (T : Transport) (raw : State)
    (c : spi_pins_conf_t) :
    (FtdiSpi_pins K T raw c)._clk = (if c.sck_pin ≠ 0 then c.sck_pin else 0x01) ∧
    (FtdiSpi_pins K T raw c)._clk_idle = 0 ∧
    (FtdiSpi_pins K T raw c).trace = raw.trace ++
      [Ev.init 1 (if c.cs_pin ≠ 0 then c.cs_pin else 0x08) K.BITMODE_MPSSE,
        Ev.gpio_set_output
          ((if c.cs_pin ≠ 0 then c.cs_pin else 0x08) ||| c.holdn_pin ||| c.wpn_pin),
        Ev.gpio_set ((if c.cs_pin ≠ 0 then c.cs_pin else 0x08) ||| c.holdn_pin ||| c.wpn_pin),
        Ev.gpio_clear (if c.sck_pin ≠ 0 then c.sck_pin else 0x01)] ∧
    ∀ (T2 : Transport) (m : Nat),
      (setMode K T2 (FtdiSpi_pins K T raw c) m)._clk =
        (if c.sck_pin ≠ 0 then c.sck_pin else 0x01) ∧
      (setMode K T2 (FtdiSpi_pins K T raw c) m)._clk_idle =
        (if m = 2 ∨ m = 3 then (if c.sck_pin ≠ 0 then c.sck_pin else 0x01) else 0) ∧
      (setMode K T2 (FtdiSpi_pins K T raw c) m).trace = (FtdiSpi_pins K T raw c).trace ++
        [if m = 2 ∨ m = 3 then Ev.gpio_set (if c.sck_pin ≠ 0 then c.sck_pin else 0x01)
          else Ev.gpio_clear (if c.sck_pin ≠ 0 then c.sck_pin else 0x01)] := by
  obtain ⟨cs, sck, holdn, wpn⟩ := c
  have hclk : (FtdiSpi_pins K T raw ⟨cs, sck, holdn, wpn⟩)._clk =
      (if sck ≠ 0 then sck else 0x01) := by
    by_cases h1 : cs = 0 <;> by_cases h2 : sck = 0 <;> by_cases h3 : holdn = 0 <;>
      by_cases h4 : wpn = 0 <;>
      simp [FtdiSpi_pins, init, gpio_set_output, gpio_set, gpio_clear, setMode, setCSmode,
        setEndianness, h1, h2, h3, h4]
  have hidle : (FtdiSpi_pins K T raw ⟨cs, sck, holdn, wpn⟩)._clk_idle = 0 := by
    by_cases h1 : cs = 0 <;> by_cases h2 : sck = 0 <;> by_cases h3 : holdn = 0 <;>
      by_cases h4 : wpn = 0 <;>
      simp [FtdiSpi_pins, init, gpio_set_output, gpio_set, gpio_clear, setMode, setCSmode,
        setEndianness, h1, h2, h3, h4]
  have hne : (if sck ≠ 0 then sck else 0x01) ≠ 0 := by
    split_ifs with h
    · exact h
    · decide
  refine ⟨hclk, hidle, ?_, ?_⟩
  · by_cases h1 : cs = 0 <;> by_cases h2 : sck = 0 <;> by_cases h3 : holdn = 0 <;>
      by_cases h4 : wpn = 0 <;>
      simp [FtdiSpi_pins, init, gpio_set_output, gpio_set, gpio_clear, setMode, setCSmode,
        setEndianness, h1, h2, h3, h4]
  · intro T2 m
    generalize FtdiSpi_pins K T raw ⟨cs, sck, holdn, wpn⟩ = o at hclk hidle
    generalize (if sck ≠ 0 then sck else 0x01) = k at hclk hne
    have h5 : m = 0 ∨ m = 1 ∨ m = 2 ∨ m = 3 ∨ ∃ n, m = n + 4 := by
      by_cases h : m < 4
      · omega
      · exact Or.inr (Or.inr (Or.inr (Or.inr ⟨m - 4, by omega⟩)))
    rcases h5 with rfl | rfl | rfl | rfl | ⟨n, rfl⟩
    · simp [setMode, gpio_clear, hclk]
    · simp [setMode, gpio_clear, hclk]
    · simp [setMode, gpio_set, hclk, hne]
    · simp [setMode, gpio_set, hclk, hne]
    · simp [setMode, gpio_clear, hclk, hidle]

/-- Witness for C16 as amended: `sck_pin = 0x02`, then `setMode(3)` on the
object. -/
theorem constructor_clock_mask_witness :
    (FtdiSpi_pins libftdi okTransport (initState libftdi 4096)
        { cs_pin := 0, sck_pin := 0x02, holdn_pin := 0, wpn_pin := 0 })._clk = 0x02 ∧
    (setMode libftdi okTransport (FtdiSpi_pins libftdi okTransport (initState libftdi 4096)
        { cs_pin := 0, sck_pin := 0x02, holdn_pin := 0, wpn_pin := 0 }) 3).trace =
      [Ev.init 1 0x08 0x02, Ev.gpio_set_output 0x08, Ev.gpio_set 0x08, Ev.gpio_clear 0x02,
        Ev.gpio_set 0x02] :=
  ⟨(constructor_clock_mask libftdi okTransport (initState libftdi 4096)
      { cs_pin := 0, sck_pin := 0x02, holdn_pin := 0, wpn_pin := 0 }).1.trans (by decide),
    ((constructor_clock_mask libftdi okTransport (initState libftdi 4096)
      { cs_pin := 0, sck_pin := 0x02, holdn_pin := 0, wpn_pin := 0 }).2.2.2
        okTransport 3).2.2.trans (by decide)⟩

/-! ## C18: failing CS commands -/

/-- C18: take a transport whose store, flush and read calls succeed and replace
the results of its GPIO commands by any others, failures included.  A transfer
returns 0 in both cases, with the same state, so the same calls in the same
order, and the same bytes in the read buffer. -/
theorem cs_failures_not_fatal (K : Consts) (T : Transport) (hT : T.Succeeds)
    (gpio : Nat → Bool) (s : State) (w rx : Option (List Nat)) (L fuel : Nat)
    (hM : 1 ≤ max_xfer s rx.isSome) (hfuel : chunkCount (max_xfer s rx.isSome) L ≤ fuel)
    (hlen : ∀ r, rx = some r → r.length = L) :
    ∃ s1 out, ft2232_spi_wr_and_rd K T fuel s L w rx = some (s1, 0, out) ∧
      ft2232_spi_wr_and_rd K { T with gpio := gpio } fuel s L w rx = some (s1, 0, out) ∧
      s1.trace = s.trace ++ transferEvents K s L w rx.isSome ∧
      out = rx.map (fun _ => responses T s.nRead (max_xfer s rx.isSome) L) := by
  have hT2 : ({ T with gpio := gpio } : Transport).Succeeds := hT
  refine ⟨_, _, wr_and_rd_ok K T hT s L fuel w rx hM hfuel hlen,
    wr_and_rd_ok K _ hT2 s L fuel w rx hM hfuel hlen, ?_, rfl⟩
  rw [after_trace, ite_withCs_trace]

/-- Witness for C18: every GPIO command fails and the read still returns 0. -/
theorem cs_failures_not_fatal_witness :
    ∃ s1 out, ft2232_spi_wr_and_rd libftdi { okTransport with gpio := fun _ => false } 3
        (initState libftdi 4) 10 none (some (List.replicate 10 0)) = some (s1, 0, out) :=
  (cs_failures_not_fatal libftdi okTransport okTransport_succeeds (fun _ => false)
    (initState libftdi 4) none (some (List.replicate 10 0)) 10 3 (by decide) (by decide)
    (by intro r hr; cases hr; decide)).elim (fun s1 h => h.elim (fun out hh => ⟨s1, out, hh.2.1⟩))

/-! ## C13: write then read -/

theorem or_and_left (a b : Nat) : (a ||| b) &&& a = a := by
  apply Nat.eq_of_testBit_eq
  intro i
  simp only [Nat.testBit_and, Nat.testBit_or]
  cases a.testBit i <;> simp

theorem or_and_eq_zero (a b c : Nat) (h1 : a &&& c = 0) (h2 : b &&& c = 0) :
    (a ||| b) &&& c = 0 := by
  apply Nat.eq_of_testBit_eq
  intro i
  have e1 := congrArg (fun x => x.testBit i) h1
  have e2 := congrArg (fun x => x.testBit i) h2
  simp only [Nat.testBit_and, Nat.zero_testBit] at e1 e2
  simp only [Nat.testBit_and, Nat.testBit_or, Nat.zero_testBit]
  cases ha : a.testBit i <;> cases hb : b.testBit i <;> cases hc : c.testBit i <;>
    simp [ha, hb, hc] at e1 e2 ⊢

/-- A transfer in MANUAL mode over a succeeding transport. -/
theorem wr_and_rd_manual (K : Consts) (T : Transport) (hT : T.Succeeds) (s : State)
    (L fuel : Nat) (w rx : Option (List Nat)) (hman : s._cs_mode = CsMode.SPI_CS_MANUAL)
    (hM : 1 ≤ max_xfer s rx.isSome) (hfuel : chunkCount (max_xfer s rx.isSome) L ≤ fuel)
    (hlen : ∀ r, rx = some r → r.length = L) :
    ft2232_spi_wr_and_rd K T fuel s L w rx =
      some (s.after ([Ev.flush] ++ chunksEvents K s L w rx.isSome), 0,
        rx.map (fun _ => responses T s.nRead (max_xfer s rx.isSome) L)) := by
  have hna : ¬ s._cs_mode = CsMode.SPI_CS_AUTO := by rw [hman]; decide
  rw [wr_and_rd_ok K T hT s L fuel w rx hM hfuel hlen]
  simp only [if_neg hna, transferEvents, List.nil_append, List.append_nil]

theorem chunksEvents_write_no_read (K : Consts) (s : State) (L : Nat) (w : Option (List Nat)) :
    ([Ev.flush] ++ chunksEvents K s L w false).countP
      (fun e => match e with | Ev.read _ => true | _ => false) = 0 := by
  rw [List.countP_eq_zero]
  intro e he
  rcases List.mem_append.1 he with h | h
  · rw [List.mem_singleton.1 h]; simp
  · unfold chunksEvents at h
    obtain ⟨k, _, hk⟩ := List.mem_flatMap.1 h
    simp only [chunkEvents, List.mem_cons, List.mem_singleton, List.not_mem_nil, or_false] at hk
    rcases hk with rfl | rfl | rfl <;> simp

/-- The whole of `ft2232_spi_wr_then_rd` over a succeeding transport. -/
theorem wr_then_rd_ok (K : Consts) (T : Transport) (hT : T.Succeeds) (s : State)
    (tx rx : List Nat) (tx_len rx_len fuel : Nat) (hrx : rx.length = rx_len)
    (hM : 1 ≤ max_xfer s true) (hfuel1 : chunkCount 4096 tx_len ≤ fuel)
    (hfuel2 : chunkCount (max_xfer s true) rx_len ≤ fuel) :
    ∃ s1, ft2232_spi_wr_then_rd K T fuel s (some tx) tx_len (some rx) rx_len =
        some (s1, 0, some (responses T s.nRead (max_xfer s true) rx_len)) ∧
      s1.trace = s.trace ++ (clearCsEvents s ++
        ([Ev.flush] ++ chunksEvents K s tx_len (some tx) false) ++
        ([Ev.flush] ++ chunksEvents K s rx_len none true) ++ setCsEvents s) ∧
      s1._cs_mode = CsMode.SPI_CS_AUTO ∧ s1._cs = s._cs_bits % 256 := by
  unfold ft2232_spi_wr_then_rd
  simp only [clearCs_eq]
  rw [wr_and_rd_manual K T hT _ tx_len fuel (some tx) none rfl
    (by rw [Option.isSome_none, max_xfer_write]; decide)
    (by rw [Option.isSome_none, max_xfer_write]; exact hfuel1) (by intro r hr; cases hr)]
  simp only [ne_eq, not_true_eq_false, if_false, after_after, Option.isSome_none]
  have hc1 : clearCsEvents (setCSmode s CsMode.SPI_CS_MANUAL) = clearCsEvents s := rfl
  have hc2 : chunksEvents K (((setCSmode s CsMode.SPI_CS_MANUAL).withCs 0).after
      (clearCsEvents s)) tx_len (some tx) false = chunksEvents K s tx_len (some tx) false := rfl
  rw [hc1, hc2]
  have h0 := chunksEvents_write_no_read K s tx_len (some tx)
  have h1 : (clearCsEvents s ++ ([Ev.flush] ++ chunksEvents K s tx_len (some tx) false)).countP
      (fun e => match e with | Ev.read _ => true | _ => false) = 0 := by
    rw [List.countP_append, h0]; rfl
  have h2 := wr_and_rd_manual K T hT
    (((setCSmode s CsMode.SPI_CS_MANUAL).withCs 0).after
      (clearCsEvents s ++ ([Ev.flush] ++ chunksEvents K s tx_len (some tx) false)))
    rx_len fuel none (some rx) rfl hM hfuel2 (by intro r hr; cases hr; exact hrx)
  rw [after_nRead, h1] at h2
  rw [h2]
  simp only [setCs_eq, Option.map_some', Option.isSome_some]
  refine ⟨_, rfl, ?_, rfl, rfl⟩
  simp only [setCSmode, after_trace, withCs_trace, List.append_assoc]
  rfl

/-- The calls of the chunks of a transfer with the headers written out. -/
theorem chunksEvents_eq (K : Consts) (s : State) (w : Option (List Nat)) (hr : Bool)
    (L : Nat) (hwr : s._wr_mode < 256) (hrd : s._rd_mode < 256) (hM : 1 ≤ max_xfer s hr) :
    chunksEvents K s L w hr =
      (List.range (chunkCount (max_xfer s hr) L)).flatMap (fun k =>
        [Ev.store [(if hr then K.MPSSE_DO_READ ||| s._rd_mode else 0) |||
              (if w.isSome then K.MPSSE_DO_WRITE ||| s._wr_mode else 0),
            (chunkLen (max_xfer s hr) L k - 1) % 256,
            (chunkLen (max_xfer s hr) L k - 1) / 256],
          Ev.store (match w with
            | some t => chunkPayload (max_xfer s hr) L t k
            | none => []),
          if hr then Ev.read (chunkLen (max_xfer s hr) L k) else Ev.flush]) := by
  have hM2 : max_xfer s hr < 65536 := Nat.mod_lt _ (by decide)
  unfold chunksEvents
  apply List.flatMap_congr
  intro k hk
  have h1 : 1 ≤ chunkLen (max_xfer s hr) L k := chunkLen_pos hM (List.mem_range.1 hk)
  have h2 : chunkLen (max_xfer s hr) L k ≤ 65535 := by unfold chunkLen; omega
  simp only [chunkEvents, header_eq _ _ h1 (by omega), opcode_eq K s _ _ hwr hrd]

/-- C13: over a transport whose calls succeed, with a CS mask that is non-zero as
a byte, a buffer size of 1 to 65535, byte-valued edge flags and write and read
bits that do not overlap each other or the flags of the other direction,
`ft2232_spi_wr_then_rd` returns 0 and makes, in this order: one CS assertion;
after a flush, the write-only chunks of `tx`, whose opcode `opw` has the write
bit and not the read bit and whose payloads make up `tx`; after a flush, the
read-only chunks, whose opcode `opr` has the read bit and not the write bit,
with empty payloads and reads that deliver `rx_len` bytes in total; one CS
deassertion; and it ends with CS mode AUTO.  In the scenario of the spec (mode
0, CS mask bit 3, buffer of 64 bytes, `tx = [0x9F]`, `rx_len = 3`) that is one
write chunk with length field 0 and payload 0x9F, then one read chunk with
length field 2 that reads 3 bytes. -/
theorem wr_then_rd_sequence (K : Consts) (T : Transport) (hT : T.Succeeds) (s : State)
    (tx rx : List Nat) (tx_len rx_len fuel : Nat) (htx : tx.length = tx_len)
    (hrx : rx.length = rx_len) (hB1 : 1 ≤ s._buffer_size) (hB2 : s._buffer_size ≤ 65535)
    (hcs : s._cs_bits % 256 ≠ 0) (hwr : s._wr_mode < 256) (hrd : s._rd_mode < 256)
    (hbits : K.MPSSE_DO_WRITE &&& K.MPSSE_DO_READ = 0)
    (hwbit : s._wr_mode &&& K.MPSSE_DO_READ = 0) (hrbit : s._rd_mode &&& K.MPSSE_DO_WRITE = 0)
    (hfuel1 : (tx_len + 4095) / 4096 ≤ fuel)
    (hfuel2 : (rx_len + s._buffer_size - 1) / s._buffer_size ≤ fuel) :
    (∃ s1 out opw opr,
      ft2232_spi_wr_then_rd K T fuel s (some tx) tx_len (some rx) rx_len =
        some (s1, 0, some out) ∧
      opw = (K.MPSSE_DO_WRITE ||| s._wr_mode) ∧ opr = (K.MPSSE_DO_READ ||| s._rd_mode) ∧
      (opw &&& K.MPSSE_DO_WRITE = K.MPSSE_DO_WRITE ∧ opw &&& K.MPSSE_DO_READ = 0) ∧
      (opr &&& K.MPSSE_DO_READ = K.MPSSE_DO_READ ∧ opr &&& K.MPSSE_DO_WRITE = 0) ∧
      s1.trace = s.trace ++
        ([Ev.gpio_clear s._cs_bits, Ev.gpio_clear s._cs_bits] ++
          ([Ev.flush] ++ (List.range ((tx_len + 4095) / 4096)).flatMap (fun k =>
            [Ev.store [opw, (min (tx_len - k * 4096) 4096 - 1) % 256,
                (min (tx_len - k * 4096) 4096 - 1) / 256],
              Ev.store ((tx.drop (k * 4096)).take (min (tx_len - k * 4096) 4096)),
              Ev.flush])) ++
          ([Ev.flush] ++
            (List.range ((rx_len + s._buffer_size - 1) / s._buffer_size)).flatMap (fun k =>
              [Ev.store [opr, (min (rx_len - k * s._buffer_size) s._buffer_size - 1) % 256,
                  (min (rx_len - k * s._buffer_size) s._buffer_size - 1) / 256],
                Ev.store [],
                Ev.read (min (rx_len - k * s._buffer_size) s._buffer_size)])) ++
          [Ev.gpio_set s._cs_bits, Ev.gpio_set s._cs_bits]) ∧
      (List.range ((tx_len + 4095) / 4096)).flatMap
        (fun k => (tx.drop (k * 4096)).take (min (tx_len - k * 4096) 4096)) = tx ∧
      out.length = rx_len ∧ s1._cs_mode = CsMode.SPI_CS_AUTO) ∧
    (∀ rx3 : List Nat, rx3.length = 3 → 1 ≤ fuel →
      ∃ s1 out, ft2232_spi_wr_then_rd K T fuel (initState K 64) (some [0x9F]) 1 (some rx3) 3 =
          some (s1, 0, some out) ∧
        s1.trace = [Ev.gpio_clear 8, Ev.gpio_clear 8,
          Ev.flush, Ev.store [K.MPSSE_DO_WRITE ||| K.MPSSE_WRITE_NEG, 0, 0], Ev.store [0x9F],
          Ev.flush,
          Ev.flush, Ev.store [K.MPSSE_DO_READ, 2, 0], Ev.store [], Ev.read 3,
          Ev.gpio_set 8, Ev.gpio_set 8] ∧
        out.length = 3 ∧ s1._cs_mode = CsMode.SPI_CS_AUTO) := by
  constructor
  · have hmx := max_xfer_read s hB2
    have hM : 1 ≤ max_xfer s true := by rw [hmx]; exact hB1
    obtain ⟨s1, hrun, htr, hmode, _⟩ := wr_then_rd_ok K T hT s tx rx tx_len rx_len fuel hrx hM
      (by rw [chunkCount_4096]; exact hfuel1) (by rw [hmx]; exact hfuel2)
    refine ⟨s1, _, _, _, hrun, rfl, rfl, ⟨or_and_left _ _, or_and_eq_zero _ _ _ hbits hwbit⟩,
      ⟨or_and_left _ _, or_and_eq_zero _ _ _ ?_ hrbit⟩, ?_, ?_,
      length_responses T hT _ _ _ hM, hmode⟩
    · rw [Nat.and_comm]; exact hbits
    · rw [htr, chunksEvents_eq K s (some tx) false tx_len hwr hrd
        (by rw [max_xfer_write]; decide), chunksEvents_eq K s none true rx_len hwr hrd hM,
        setCsEvents_of_ne s hcs]
      simp only [max_xfer_write, hmx, chunkCount_4096, Option.isSome_some, Option.isSome_none,
        if_true, Bool.false_eq_true, if_false, Nat.zero_or, Nat.or_zero, clearCsEvents,
        chunkPayload, chunkLen]
      simp only [chunkCount]
    · have := flatMap_chunkPayload 4096 tx_len ((tx_len + 4095) / 4096) tx htx
      unfold chunkPayload chunkLen at this
      rw [this]
      exact List.take_of_length_le (by omega)
  · intro rx3 hrx3 hfuel
    have hmx : max_xfer (initState K 64) true = 64 := rfl
    have hM : 1 ≤ max_xfer (initState K 64) true := by rw [hmx]; decide
    have hc : chunkCount 64 3 = 1 := by decide
    obtain ⟨s1, hrun, htr, hmode, _⟩ := wr_then_rd_ok K T hT (initState K 64) [0x9F] rx3 1 3
      fuel hrx3 hM (by rw [chunkCount_one (by decide)]; exact hfuel)
      (by rw [hmx, hc]; exact hfuel)
    refine ⟨s1, _, hrun, ?_, length_responses T hT _ _ _ hM, hmode⟩
    have hwr : (initState K 64)._wr_mode < 256 := K.write_neg_lt
    have hrd : (initState K 64)._rd_mode < 256 := by show (0 : Nat) < 256; decide
    have hcs8 : (initState K 64)._cs_bits % 256 ≠ 0 := by show 8 % 256 ≠ 0; decide
    have hc1 : chunkCount 4096 1 = 1 := by decide
    rw [htr, chunksEvents_eq K _ (some [0x9F]) false 1 hwr hrd
        (by rw [max_xfer_write]; decide), chunksEvents_eq K _ none true 3 hwr hrd hM,
        setCsEvents_of_ne _ hcs8]
    simp only [max_xfer_write, hmx, hc, hc1, Option.isSome_some, Option.isSome_none,
      if_true, Bool.false_eq_true, if_false, Nat.zero_or, Nat.or_zero, clearCsEvents,
      chunkPayload, chunkLen, range_one_eq, List.flatMap_singleton]
    simp [initState]

/-- Witness for C13: the scenario of the spec over `okTransport`. -/
theorem wr_then_rd_sequence_witness :
    ∃ s1 out, ft2232_spi_wr_then_rd libftdi okTransport 1 (initState libftdi 64) (some [0x9F]) 1
        (some [0, 0, 0]) 3 = some (s1, 0, some out) ∧
      s1.trace = [Ev.gpio_clear 8, Ev.gpio_clear 8,
        Ev.flush, Ev.store [0x11, 0, 0], Ev.store [0x9F], Ev.flush,
        Ev.flush, Ev.store [0x20, 2, 0], Ev.store [], Ev.read 3,
        Ev.gpio_set 8, Ev.gpio_set 8] :=
  ((wr_then_rd_sequence libftdi okTransport okTransport_succeeds (initState libftdi 64) [0x9F]
    [0, 0, 0] 1 3 1 rfl rfl (by decide) (by decide) (by decide) (by decide) (by decide)
    (by decide) (by decide) (by decide) (by decide) (by decide)).2 [0, 0, 0] rfl
    (by decide)).imp (fun _ h => h.imp (fun _ hh => ⟨hh.1, hh.2.1⟩))

/-! ## C11: chip select after polling -/

/-- Whatever the transport answers, the chunk loop issues no GPIO command and
changes nothing but the record of the calls. -/
theorem xfer_loop_no_gpio (T : Transport) (cmd0 M : Nat) (w : Option (List Nat)) :
    ∀ (fuel : Nat) (s : State) (len tx_ptr rx_ptr : Nat) (rx : Option (List Nat))
      (res : State × Option Int × Option (List Nat)),
      xfer_loop T cmd0 M w fuel s len tx_ptr rx_ptr rx = some res →
      ∃ evs, res.1 = s.after evs ∧ ∀ e ∈ evs, e.isGpio = false := by
  intro fuel
  induction fuel with
  | zero =>
    intro s len tx_ptr rx_ptr rx res h
    simp only [xfer_loop] at h
    split at h
    · cases h
    · cases h; exact ⟨[], (after_nil s).symm, fun e he => by cases he⟩
  | succ f ih =>
    intro s len tx_ptr rx_ptr rx res h
    rw [xfer_loop] at h
    simp only [mpsse_store_eq, mpsse_write_eq, mpsse_read_eq, after_after] at h
    generalize (if len > M then M else len) % 65536 = x at h
    have hmem : ∀ (a b : List Nat) (c : Ev), c.isGpio = false → ∀ e : Ev,
        e ∈ [Ev.store a] ++ [Ev.store b] ++ [c] → e.isGpio = false := by
      intro a b c hc e he
      simp only [List.cons_append, List.nil_append, List.mem_cons, List.mem_singleton,
        List.not_mem_nil, or_false] at he
      rcases he with rfl | rfl | rfl
      · rfl
      · rfl
      · exact hc
    have hmem2 : ∀ (a b : List Nat) (e : Ev),
        e ∈ [Ev.store a] ++ [Ev.store b] → e.isGpio = false := by
      intro a b e he
      simp only [List.cons_append, List.nil_append, List.mem_cons, List.mem_singleton,
        List.not_mem_nil, or_false] at he
      rcases he with rfl | rfl <;> rfl
    cases rx with
    | none =>
      simp only [] at h
      split_ifs at h with h1 h2 h3
      · cases h; exact ⟨_, rfl, hmem2 _ _⟩
      · cases h; exact ⟨_, rfl, hmem _ _ _ rfl⟩
      · obtain ⟨evs, he1, he2⟩ := ih _ _ _ _ _ _ h
        refine ⟨_ ++ evs, by rw [he1, after_after], ?_⟩
        intro e he
        rcases List.mem_append.1 he with h5 | h5
        · exact hmem _ _ Ev.flush rfl e h5
        · exact he2 e h5
      · cases h; exact ⟨[], (after_nil s).symm, fun e he => by cases he⟩
    | some r =>
      simp only [] at h
      split_ifs at h with h1 h2 h3
      · cases h; exact ⟨_, rfl, hmem2 _ _⟩
      · cases h; exact ⟨_, rfl, hmem _ _ _ rfl⟩
      · obtain ⟨evs, he1, he2⟩ := ih _ _ _ _ _ _ h
        refine ⟨_ ++ evs, by rw [he1, after_after], ?_⟩
        intro e he
        rcases List.mem_append.1 he with h5 | h5
        · exact hmem _ _ (Ev.read _) rfl e h5
        · exact he2 e h5
      · cases h; exact ⟨[], (after_nil s).symm, fun e he => by cases he⟩

/-- Whatever the transport answers, a transfer in MANUAL mode issues no GPIO
command and changes nothing but the record of the calls. -/
theorem wr_and_rd_manual_no_gpio (K : Consts) (T : Transport) (fuel : Nat) (s : State)
    (L : Nat) (w rx : Option (List Nat)) (res : State × Int × Option (List Nat))
    (hman : s._cs_mode = CsMode.SPI_CS_MANUAL)
    (h : ft2232_spi_wr_and_rd K T fuel s L w rx = some res) :
    ∃ evs, res.1 = s.after evs ∧ ∀ e ∈ evs, e.isGpio = false := by
  have hna : ¬ s._cs_mode = CsMode.SPI_CS_AUTO := by rw [hman]; decide
  unfold ft2232_spi_wr_and_rd at h
  simp only [if_neg hna, mpsse_write_eq] at h
  have hcons : ∀ evs : List Ev, (∀ e ∈ evs, e.isGpio = false) →
      ∀ e ∈ [Ev.flush] ++ evs, e.isGpio = false := by
    intro evs hev e he
    rcases List.mem_append.1 he with h5 | h5
    · rw [List.mem_singleton.1 h5]; rfl
    · exact hev e h5
  split at h
  · cases h
  · next s3 ret out heq =>
    cases h
    obtain ⟨evs, h1, h2⟩ := xfer_loop_no_gpio T _ _ w fuel _ L 0 0 rx _ heq
    exact ⟨[Ev.flush] ++ evs, by rw [← after_after]; exact h1, hcons evs h2⟩
  · next s3 out heq =>
    obtain ⟨evs, h1, h2⟩ := xfer_loop_no_gpio T _ _ w fuel _ L 0 0 rx _ heq
    simp only [] at h1
    subst h1
    have hna3 : ¬ ((s.after [Ev.flush]).after evs)._cs_mode = CsMode.SPI_CS_AUTO := hna
    rw [if_neg hna3] at h
    cases h
    exact ⟨[Ev.flush] ++ evs, by rw [← after_after], hcons evs h2⟩

/-- Whatever the transport answers, the polling loop entered in MANUAL mode
issues no GPIO command and changes nothing but the record of the calls. -/
theorem wait_loop_no_gpio (K : Consts) (T : Transport) (fuel mask cond timeout : Nat) :
    ∀ (n : Nat) (s : State) (count rx : Nat) (res : State × Nat × Nat),
      s._cs_mode = CsMode.SPI_CS_MANUAL →
      wait_loop K T fuel mask cond timeout n s count rx = some res →
      ∃ evs, res.1 = s.after evs ∧ ∀ e ∈ evs, e.isGpio = false := by
  intro n
  induction n with
  | zero =>
    intro s count rx res _ h
    simp only [wait_loop] at h
    cases h
  | succ n ih =>
    intro s count rx res hman h
    rw [wait_loop] at h
    split at h
    · cases h
    · next s1 ret out heq =>
      obtain ⟨evs, h1, h2⟩ := wr_and_rd_manual_no_gpio K T fuel s 1 none (some [rx]) _ hman heq
      simp only [] at h1
      subst h1
      simp only [] at h
      split_ifs at h with h3 h4
      · cases h; exact ⟨evs, rfl, h2⟩
      · obtain ⟨evs2, h5, h6⟩ := ih (s.after evs) _ _ _ hman h
        refine ⟨evs ++ evs2, by rw [h5, after_after], ?_⟩
        intro e he
        rcases List.mem_append.1 he with h7 | h7
        · exact h2 e h7
        · exact h6 e h7
      · cases h; exact ⟨evs, rfl, h2⟩

/-- C11: whenever `spi_wait` returns, with success or with the timeout error,
whatever the CS mode and the recorded CS state at entry and whatever the
transport calls returned: the CS mode is AUTO; the calls it made are the two
`gpio_clear` of the CS mask, then calls none of which is a GPIO command, then
the two commands of `setCs`; and for a CS mask that is a non-zero 8-bit value
those last two commands are `gpio_set` of the CS mask and the recorded CS
state equals the CS mask. -/
theorem spi_wait_leaves_cs_released (K : Consts) (T : Transport) (fuel : Nat) (s s1 : State)
    (cmd mask cond timeout rx0 rx1 : Nat) (ret : Int)
    (hrun : spi_wait K T fuel s cmd mask cond timeout rx0 = some (s1, ret, rx1)) :
    s1._cs_mode = CsMode.SPI_CS_AUTO ∧
    ∃ mid, (∀ e ∈ mid, e.isGpio = false) ∧
      s1.trace = s.trace ++
        ([Ev.gpio_clear s._cs_bits, Ev.gpio_clear s._cs_bits] ++ mid ++ setCsEvents s) ∧
      (s._cs_bits ≠ 0 → s._cs_bits < 256 →
        s1._cs = s._cs_bits ∧
        s1.trace = s.trace ++
          ([Ev.gpio_clear s._cs_bits, Ev.gpio_clear s._cs_bits] ++ mid ++
            [Ev.gpio_set s._cs_bits, Ev.gpio_set s._cs_bits])) := by
  unfold spi_wait at hrun
  simp only [clearCs_eq] at hrun
  split at hrun
  · cases hrun
  · next s3 r3 o3 hA =>
    obtain ⟨e1, h1, g1⟩ := wr_and_rd_manual_no_gpio K T fuel _ 1 (some [cmd]) none _ rfl hA
    simp only [] at h1
    subst h1
    split at hrun
    · cases hrun
    · next s4 count rx hB =>
      obtain ⟨e2, h2, g2⟩ := wait_loop_no_gpio K T fuel mask cond timeout fuel _ 0 rx0 _ rfl hB
      simp only [] at h2
      subst h2
      simp only [setCs_eq] at hrun
      have hmid : ∀ e ∈ e1 ++ e2, e.isGpio = false := by
        intro e he
        rcases List.mem_append.1 he with h7 | h7
        · exact g1 e h7
        · exact g2 e h7
      have hs1 : s1 = setCSmode (((((setCSmode s CsMode.SPI_CS_MANUAL).withCs 0).after
          (clearCsEvents s)).after e1).after e2 |>.withCs (s._cs_bits % 256) |>.after
            (setCsEvents s)) CsMode.SPI_CS_AUTO := by
        split_ifs at hrun <;> · cases hrun; rfl
      subst hs1
      refine ⟨rfl, e1 ++ e2, hmid, ?_, ?_⟩
      · simp only [setCSmode, after_trace, withCs_trace, clearCsEvents, List.append_assoc]
      · intro h0 h256
        have hmod : s._cs_bits % 256 = s._cs_bits := Nat.mod_eq_of_lt h256
        have hne : s._cs_bits % 256 ≠ 0 := by rw [hmod]; exact h0
        refine ⟨hmod, ?_⟩
        rw [← setCsEvents_of_ne s hne]
        simp only [setCSmode, after_trace, withCs_trace, clearCsEvents, List.append_assoc]

/-- Witness for C11: a poll that finds its match on the third cycle. -/
theorem spi_wait_leaves_cs_released_witness :
    ∃ s1 ret rx1, spi_wait libftdi okTransport 3 (initState libftdi 4) 5 0xff 32 10 0 =
        some (s1, ret, rx1) ∧
      s1._cs_mode = CsMode.SPI_CS_AUTO ∧ s1._cs = 8 :=
  (fun hrun =>
    ⟨_, _, _, hrun,
      (spi_wait_leaves_cs_released libftdi okTransport 3 (initState libftdi 4) _ 5 0xff 32 10 0
        _ _ hrun).1,
      (spi_wait_leaves_cs_released libftdi okTransport 3 (initState libftdi 4) _ 5 0xff 32 10 0
        _ _ hrun).2.elim (fun _ h => (h.2.2 (by decide) (by decide)).1)⟩)
  (spi_wait_run libftdi okTransport okTransport_succeeds (initState libftdi 4) 5 0xff 32 10 0
    3 3 (by decide) (by decide) (by decide)
    (by intro j hj; have h2 : j = 0 ∨ j = 1 := by omega
        rcases h2 with rfl | rfl <;> decide)
    (Or.inr (by decide)))

/-! ## C19: termination of the chunk loop -/

/-- Over a succeeding transport, the chunk loop does not end in fewer
iterations than there are chunks left. -/
theorem xfer_loop_short (T : Transport) (hT : T.Succeeds) (cmd0 M L : Nat) (hM1 : 1 ≤ M)
    (hM2 : M < 65536) (w : Option (List Nat)) :
    ∀ (fuel m j : Nat) (s : State) (rx : Option (List Nat)) (tx_ptr rx_ptr : Nat),
      j + m = chunkCount M L → fuel < m →
      xfer_loop T cmd0 M w fuel s (L - j * M) tx_ptr rx_ptr rx = none := by
  obtain ⟨hst, hfl, hrd0, _⟩ := hT
  intro fuel
  induction fuel with
  | zero =>
    intro m j s rx tx_ptr rx_ptr hj hm
    have hpos := mul_lt_of_lt_chunkCount hM1 (show j < chunkCount M L by omega)
    have hlenpos : L - j * M > 0 := by omega
    simp only [xfer_loop, hlenpos, if_true]
  | succ f ih =>
    intro m j s rx tx_ptr rx_ptr hj hm
    have hpos := mul_lt_of_lt_chunkCount hM1 (show j < chunkCount M L by omega)
    have hlenpos : L - j * M > 0 := by omega
    have hflush : ∀ i, ¬ T.flush i < 0 := fun i => not_lt.mpr (hfl i)
    have hread : ∀ i n, ¬ (T.read i n).1 < 0 := fun i n => not_lt.mpr (hrd0 i n)
    rw [xfer_loop]
    simp only [hlenpos, if_true, xfer_eq_chunkLen hM2, mpsse_store_eq, mpsse_write_eq,
      mpsse_read_eq, hst, after_after, sub_chunkLen, ne_eq, not_true_eq_false, if_false]
    cases rx with
    | none =>
      simp only [hflush, if_false]
      exact ih (m - 1) (j + 1) _ _ _ _ (by omega) (by omega)
    | some r =>
      simp only [hread, if_false]
      exact ih (m - 1) (j + 1) _ _ _ _ (by omega) (by omega)

theorem header_zero (cmd0 : Nat) : header cmd0 0 = [cmd0, 0xFF, 0xFF] := by
  simp only [header]
  simp only [Nat.zero_add, Nat.shiftRight_zero]
  congr 1

theorem memcpy_zero (dst src : List Nat) (off : Nat) : memcpy dst off src 0 = dst := by
  simp [memcpy]

/-- With a chunk limit of 0 and a succeeding transport, one iteration of the
chunk loop of a reading transfer stores a header with length field 0xFFFF and
an empty payload, asks for 0 bytes, and leaves the remaining length, the
pointers and the read buffer as they were. -/
theorem xfer_loop_zero_step (T : Transport) (hT : T.Succeeds) (cmd0 : Nat)
    (w : Option (List Nat)) (fuel : Nat) (s : State) (len tx_ptr rx_ptr : Nat) (r : List Nat)
    (hlen : 0 < len) :
    xfer_loop T cmd0 0 w (fuel + 1) s len tx_ptr rx_ptr (some r) =
      xfer_loop T cmd0 0 w fuel
        (s.after [Ev.store [cmd0, 0xFF, 0xFF], Ev.store [], Ev.read 0]) len tx_ptr rx_ptr
        (some r) := by
  obtain ⟨hst, _, hrd0, _⟩ := hT
  have hread : ∀ i n, ¬ (T.read i n).1 < 0 := fun i n => not_lt.mpr (hrd0 i n)
  have hx : (if len > 0 then 0 else len) % 65536 = 0 := by
    rw [if_pos hlen]
  have hlen2 : len > 0 := hlen
  rw [xfer_loop]
  simp only [hlen2, if_true, hx, mpsse_store_eq, mpsse_read_eq, hst, after_after, ne_eq,
    not_true_eq_false, if_false, hread, Nat.zero_mod, header_zero, memcpy_zero, Nat.sub_zero,
    Nat.add_zero, List.take_zero]
  cases w <;> rfl

theorem xfer_loop_zero_none (T : Transport) (hT : T.Succeeds) (cmd0 : Nat)
    (w : Option (List Nat)) (len tx_ptr rx_ptr : Nat) (r : List Nat) (hlen : 0 < len) :
    ∀ (fuel : Nat) (s : State),
      xfer_loop T cmd0 0 w fuel s len tx_ptr rx_ptr (some r) = none := by
  intro fuel
  induction fuel with
  | zero =>
    intro s
    have hlen2 : len > 0 := hlen
    simp only [xfer_loop, hlen2, if_true]
  | succ f ih =>
    intro s
    rw [xfer_loop_zero_step T hT cmd0 w f s len tx_ptr rx_ptr r hlen]
    exact ih _

theorem wr_and_rd_short (K : Consts) (T : Transport) (hT : T.Succeeds) (s : State)
    (L fuel : Nat) (w rx : Option (List Nat)) (hM : 1 ≤ max_xfer s rx.isSome)
    (hfuel : fuel < chunkCount (max_xfer s rx.isSome) L) :
    ft2232_spi_wr_and_rd K T fuel s L w rx = none := by
  have hM2 : max_xfer s rx.isSome < 65536 := Nat.mod_lt _ (by decide)
  have key := fun (s2 : State) =>
    xfer_loop_short T hT (opcode K s w.isSome rx.isSome) (max_xfer s rx.isSome) L hM hM2 w
      fuel (chunkCount (max_xfer s rx.isSome) L) 0 s2 rx 0 0 (by simp) hfuel
  simp only [Nat.zero_mul, Nat.sub_zero] at key
  unfold ft2232_spi_wr_and_rd
  simp only [key]

theorem wr_and_rd_zero (K : Consts) (T : Transport) (hT : T.Succeeds) (s : State)
    (L fuel : Nat) (w : Option (List Nat)) (r : List Nat) (hL : 1 ≤ L)
    (hM : max_xfer s true = 0) :
    ft2232_spi_wr_and_rd K T fuel s L w (some r) = none := by
  unfold ft2232_spi_wr_and_rd
  simp only [Option.isSome_some, hM, xfer_loop_zero_none T hT _ w L 0 0 r hL]

/-- C19: take a succeeding transport, a length `L ≥ 1` and let `M` be `max_xfer`,
the 16-bit truncation of the buffer size when reading and 4096 otherwise.
The transfer returns for some bound on the iterations of its loop if and only
if `M ≥ 1`.  When `M ≥ 1` it returns exactly for the bounds of at least
`⌈L / M⌉` iterations, with 0 and the calls of that many chunks, and the
remaining length `L - k M` decreases strictly from one chunk to the next.
When `M = 0`, which needs a read buffer and a buffer size that is 0 modulo
65536, it returns for no bound, and each iteration of the loop stores a header
with length field 0xFFFF and an empty payload, reads 0 bytes and leaves the
remaining length as it was. -/
theorem chunk_loop_termination (K : Consts) (T : Transport) (hT : T.Succeeds) (s : State)
    (w rx : Option (List Nat)) (L : Nat) (hL : 1 ≤ L) (hlen : ∀ r, rx = some r → r.length = L) :
    ((∃ fuel, ft2232_spi_wr_and_rd K T fuel s L w rx ≠ none) ↔ 1 ≤ max_xfer s rx.isSome) ∧
    (1 ≤ max_xfer s rx.isSome →
      chunkCount (max_xfer s rx.isSome) L = (L + max_xfer s rx.isSome - 1) / max_xfer s rx.isSome ∧
      (∀ fuel, fuel < chunkCount (max_xfer s rx.isSome) L →
        ft2232_spi_wr_and_rd K T fuel s L w rx = none) ∧
      (∀ fuel, chunkCount (max_xfer s rx.isSome) L ≤ fuel →
        ∃ s1 out, ft2232_spi_wr_and_rd K T fuel s L w rx = some (s1, 0, out) ∧
          s1.trace = s.trace ++ transferEvents K s L w rx.isSome) ∧
      (∀ k, k < chunkCount (max_xfer s rx.isSome) L →
        L - (k + 1) * max_xfer s rx.isSome < L - k * max_xfer s rx.isSome)) ∧
    (max_xfer s rx.isSome = 0 →
      rx.isSome = true ∧ s._buffer_size % 65536 = 0 ∧
      (∀ fuel, ft2232_spi_wr_and_rd K T fuel s L w rx = none) ∧
      (∀ (fuel : Nat) (s2 : State) (len tx_ptr rx_ptr : Nat) (r : List Nat), 0 < len →
        xfer_loop T (opcode K s w.isSome rx.isSome) 0 w (fuel + 1) s2 len tx_ptr rx_ptr
            (some r) =
          xfer_loop T (opcode K s w.isSome rx.isSome) 0 w fuel
            (s2.after [Ev.store [opcode K s w.isSome rx.isSome, 0xFF, 0xFF], Ev.store [],
              Ev.read 0]) len tx_ptr rx_ptr (some r))) := by
  have hzero : max_xfer s rx.isSome = 0 → rx.isSome = true ∧ s._buffer_size % 65536 = 0 ∧
      ∀ fuel, ft2232_spi_wr_and_rd K T fuel s L w rx = none := by
    intro h0
    cases rx with
    | none => rw [Option.isSome_none, max_xfer_write] at h0; cases h0
    | some r =>
      rw [Option.isSome_some] at h0
      refine ⟨rfl, ?_, fun fuel => wr_and_rd_zero K T hT s L fuel w r hL h0⟩
      simpa [max_xfer] using h0
  have hpos : 1 ≤ max_xfer s rx.isSome → ∀ fuel, chunkCount (max_xfer s rx.isSome) L ≤ fuel →
      ∃ s1 out, ft2232_spi_wr_and_rd K T fuel s L w rx = some (s1, 0, out) ∧
        s1.trace = s.trace ++ transferEvents K s L w rx.isSome := by
    intro hM fuel hfuel
    refine ⟨_, _, wr_and_rd_ok K T hT s L fuel w rx hM hfuel hlen, ?_⟩
    rw [after_trace, ite_withCs_trace]
  refine ⟨⟨?_, ?_⟩, ?_, ?_⟩
  · rintro ⟨fuel, hne⟩
    by_contra hM
    exact hne ((hzero (by omega)).2.2 fuel)
  · intro hM
    obtain ⟨s1, out, h1, _⟩ := hpos hM _ (le_refl _)
    exact ⟨_, by rw [h1]; exact Option.some_ne_none _⟩
  · intro hM
    refine ⟨rfl, fun fuel hf => wr_and_rd_short K T hT s L fuel w rx hM hf, hpos hM, ?_⟩
    intro k hk
    have h1 := mul_lt_of_lt_chunkCount hM hk
    have h2 : (k + 1) * max_xfer s rx.isSome = k * max_xfer s rx.isSome + max_xfer s rx.isSome := by
      ring
    omega
  · intro h0
    obtain ⟨h1, h2, h3⟩ := hzero h0
    exact ⟨h1, h2, h3, fun fuel s2 len tx_ptr rx_ptr r hl =>
      xfer_loop_zero_step T hT _ w fuel s2 len tx_ptr rx_ptr r hl⟩

/-- Witness for C19: with a buffer of 4 bytes a 10-byte read returns after 3
iterations and not after 2; with a buffer of 65536 bytes a 1-byte read never
returns. -/
theorem chunk_loop_termination_witness :
    (∃ s1 out, ft2232_spi_wr_and_rd libftdi okTransport 3 (initState libftdi 4) 10 none
      (some (List.replicate 10 0)) = some (s1, 0, out)) ∧
    ft2232_spi_wr_and_rd libftdi okTransport 2 (initState libftdi 4) 10 none
      (some (List.replicate 10 0)) = none ∧
    ∀ fuel, ft2232_spi_wr_and_rd libftdi okTransport fuel (initState libftdi 65536) 1 none
      (some [0]) = none :=
  ⟨((chunk_loop_termination libftdi okTransport okTransport_succeeds (initState libftdi 4) none
      (some (List.replicate 10 0)) 10 (by decide)
      (by intro r hr; cases hr; decide)).2.1 (by decide)).2.2.1 3 (by decide) |>.imp
        (fun _ h => h.imp (fun _ hh => hh.1)),
    ((chunk_loop_termination libftdi okTransport okTransport_succeeds (initState libftdi 4) none
      (some (List.replicate 10 0)) 10 (by decide)
      (by intro r hr; cases hr; decide)).2.1 (by decide)).2.1 2 (by decide),
    ((chunk_loop_termination libftdi okTransport okTransport_succeeds (initState libftdi 65536)
      none (some [0]) 1 (by decide) (by intro r hr; cases hr; rfl)).2.2 (by decide)).2.2.1⟩

/-! ## C20: polling with a zero iteration limit -/

/-- Over a succeeding transport, a `spi_wait` that returns has made at least
one read cycle. -/
theorem spi_wait_first_cycle (K : Consts) (T : Transport) (hT : T.Succeeds) (s s1 : State)
    (cmd mask cond timeout rx0 rx1 fuel : Nat) (ret : Int) (hM : 1 ≤ max_xfer s true)
    (hrun : spi_wait K T fuel s cmd mask cond timeout rx0 = some (s1, ret, rx1)) :
    ∃ rest, s1.trace = s.trace ++
      (clearCsEvents s ++ writeCmdEvents K s cmd ++ readCycleEvents K s ++ rest) := by
  cases fuel with
  | zero =>
    unfold spi_wait at hrun
    simp only [wait_loop] at hrun
    split at hrun <;> cases hrun
  | succ n =>
    unfold spi_wait at hrun
    simp only [clearCs_eq] at hrun
    rw [one_byte_write K T hT _ cmd (n + 1) (by omega) rfl] at hrun
    simp only [] at hrun
    have hc1 : clearCsEvents (setCSmode s CsMode.SPI_CS_MANUAL) = clearCsEvents s := rfl
    have hc2 : writeCmdEvents K (((setCSmode s CsMode.SPI_CS_MANUAL).withCs 0).after
        (clearCsEvents s)) cmd = writeCmdEvents K s cmd := rfl
    rw [hc1, hc2] at hrun
    have hrd := one_byte_read K T hT ((((setCSmode s CsMode.SPI_CS_MANUAL).withCs 0).after
      (clearCsEvents s)).after (writeCmdEvents K s cmd)) rx0 (n + 1) (by omega) rfl hM
    have hc3 : readCycleEvents K ((((setCSmode s CsMode.SPI_CS_MANUAL).withCs 0).after
        (clearCsEvents s)).after (writeCmdEvents K s cmd)) = readCycleEvents K s := rfl
    rw [hc3] at hrd
    rw [wait_loop, hrd] at hrun
    simp only [] at hrun
    have hfin : ∀ (s4 : State) (evs : List Ev),
        s4 = ((((setCSmode s CsMode.SPI_CS_MANUAL).withCs 0).after (clearCsEvents s)).after
          (writeCmdEvents K s cmd)).after (readCycleEvents K s ++ evs) →
        (setCSmode (setCs T s4).1 CsMode.SPI_CS_AUTO).trace = s.trace ++
          (clearCsEvents s ++ writeCmdEvents K s cmd ++ readCycleEvents K s ++
            (evs ++ setCsEvents s)) := by
      intro s4 evs hs4
      subst hs4
      simp only [setCs_eq, setCSmode, after_trace, withCs_trace, List.append_assoc]
      rfl
    split_ifs at hrun with h1 h2
    · simp only [] at hrun
      split_ifs at hrun
      cases hrun
      exact ⟨[] ++ setCsEvents s, hfin _ [] (by rw [List.append_nil])⟩
    · split at hrun
      · cases hrun
      · next s4 count rx hB =>
        obtain ⟨evs, h3, _⟩ := wait_loop_no_gpio K T (n + 1) mask cond timeout n _ _ _ _ rfl hB
        simp only [] at h3
        rw [after_after] at h3
        split_ifs at hrun <;>
        · cases hrun
          exact ⟨evs ++ setCsEvents s, hfin _ evs h3⟩
    · simp only [] at hrun
      split_ifs at hrun
      cases hrun
      exact ⟨[] ++ setCsEvents s, hfin _ [] (by rw [List.append_nil])⟩

theorem sample_okTransport (i : Nat) : sample okTransport i = (16 * i) % 256 := rfl

theorem okTransport_never_one (i : Nat) : sample okTransport i &&& 0xff ≠ 1 := by
  have h := Nat.and_pow_two_sub_one_eq_mod (sample okTransport i) 8
  have h2 : sample okTransport i &&& 0xff = sample okTransport i % 256 := by simpa using h
  rw [h2, sample_okTransport]
  omega

/-- C20: `spi_wait` with `maxIterations = 0`, over a transport whose calls
succeed.  If it returns it has made at least one read cycle.  If the first
answer that satisfies `(r & mask) == cond` is the `k`-th one, with
`1 ≤ k ≤ 2 ^ 32 - 1`, it returns 0 after exactly `k` read cycles.  If none of
the first `2 ^ 32 - 1` answers does, it returns `-ETIME` after exactly `2 ^ 32`
read cycles, when its 32-bit counter is back at 0, with `rx` holding the
`2 ^ 32`-th answer. -/
theorem spi_wait_zero_limit (K : Consts) (T : Transport) (hT : T.Succeeds) (s : State)
    (cmd mask cond rx0 fuel : Nat) (hM : 1 ≤ max_xfer s true) :
    (∀ (s1 : State) (ret : Int) (rx1 : Nat),
      spi_wait K T fuel s cmd mask cond 0 rx0 = some (s1, ret, rx1) →
      ∃ rest, s1.trace = s.trace ++
        ([Ev.gpio_clear s._cs_bits, Ev.gpio_clear s._cs_bits] ++
          [Ev.flush, Ev.store [opcode K s true false, 0, 0], Ev.store [cmd], Ev.flush] ++
          [Ev.flush, Ev.store [opcode K s false true, 0, 0], Ev.store [], Ev.read 1] ++
          rest)) ∧
    (∀ k, 1 ≤ k → k ≤ 2 ^ 32 - 1 → k ≤ fuel →
      (∀ j, j + 1 < k → sample T (s.nRead + j) &&& mask ≠ cond) →
      sample T (s.nRead + (k - 1)) &&& mask = cond →
      ∃ s1, spi_wait K T fuel s cmd mask cond 0 rx0 =
          some (s1, 0, sample T (s.nRead + (k - 1))) ∧
        s1.trace = s.trace ++
          ([Ev.gpio_clear s._cs_bits, Ev.gpio_clear s._cs_bits] ++
            [Ev.flush, Ev.store [opcode K s true false, 0, 0], Ev.store [cmd], Ev.flush] ++
            (List.range k).flatMap (fun _ =>
              [Ev.flush, Ev.store [opcode K s false true, 0, 0], Ev.store [], Ev.read 1]) ++
            setCsEvents s)) ∧
    (2 ^ 32 ≤ fuel →
      (∀ j, j < 2 ^ 32 - 1 → sample T (s.nRead + j) &&& mask ≠ cond) →
      ∃ s1, spi_wait K T fuel s cmd mask cond 0 rx0 =
          some (s1, -(K.ETIME : Int), sample T (s.nRead + (2 ^ 32 - 1))) ∧
        s1.trace = s.trace ++
          ([Ev.gpio_clear s._cs_bits, Ev.gpio_clear s._cs_bits] ++
            [Ev.flush, Ev.store [opcode K s true false, 0, 0], Ev.store [cmd], Ev.flush] ++
            (List.range (2 ^ 32)).flatMap (fun _ =>
              [Ev.flush, Ev.store [opcode K s false true, 0, 0], Ev.store [], Ev.read 1]) ++
            setCsEvents s)) := by
  refine ⟨?_, ?_, ?_⟩
  · intro s1 ret rx1 hrun
    exact spi_wait_first_cycle K T hT s s1 cmd mask cond 0 rx0 rx1 fuel ret hM hrun
  · intro k hk1 hk2 hfuel hfirst hmatch
    have hrun := spi_wait_run K T hT s cmd mask cond 0 rx0 fuel k hk1 hfuel hM
      (fun j hj => ⟨by omega, hfirst j hj⟩) (Or.inr hmatch)
    have hne : ¬ k % 2 ^ 32 = 0 := by omega
    rw [if_neg hne] at hrun
    exact ⟨_, hrun, rfl⟩
  · intro hfuel hnever
    have hrun := spi_wait_run K T hT s cmd mask cond 0 rx0 fuel (2 ^ 32) (by decide) hfuel hM
      (fun j hj => ⟨by omega, hnever j (by omega)⟩) (Or.inl (by decide))
    rw [if_pos (by decide)] at hrun
    exact ⟨_, hrun, rfl⟩

/-- Witness for C20: with a zero limit, `okTransport` gives a match on the third
cycle for the value 32, and never gives the value 1. -/
theorem spi_wait_zero_limit_witness :
    (∃ s1, spi_wait libftdi okTransport 3 (initState libftdi 4) 5 0xff 32 0 0 =
      some (s1, 0, sample okTransport (0 + (3 - 1)))) ∧
    (∃ s1, spi_wait libftdi okTransport (2 ^ 32) (initState libftdi 4) 5 0xff 1 0 0 =
      some (s1, -(libftdi.ETIME : Int), sample okTransport (0 + (2 ^ 32 - 1)))) :=
  ⟨((spi_wait_zero_limit libftdi okTransport okTransport_succeeds (initState libftdi 4) 5 0xff
      32 0 3 (by decide)).2.1 3 (by decide) (by decide) (by decide)
      (by intro j hj; have h2 : j = 0 ∨ j = 1 := by omega
          rcases h2 with rfl | rfl <;> decide)
      (by decide)).imp (fun _ h => h.1),
    ((spi_wait_zero_limit libftdi okTransport okTransport_succeeds (initState libftdi 4) 5 0xff
      1 0 (2 ^ 32) (by decide)).2.2 (le_refl _)
      (fun j _ => okTransport_never_one _)).imp (fun _ h => h.1)⟩

end FtdiSpi
